import Mathlib

/-!
Verification of the `pz-utils` Fluent (.ftl) analyzer core
(`src/node/ftl/analyzer/FtlAnalyzer.ts`, `helpers.ts`, `types.ts`, and the
discovery module) against its natural-language specification.

The TypeScript code is shallowly embedded: JS `Map`/`Set`/`Record` values
become insertion-ordered association lists / duplicate-free lists, object
mutation becomes explicit state passing, the external `@fluent/syntax`
parser output becomes an explicit AST datatype carried on each file record,
and file-system reads become a tree snapshot passed as data.  A few loops
that are not structurally recursive carry a fuel argument that is always
large enough (noted where they appear) so that every definition stays
kernel-executable.
-/

/-! ## JS collection primitives

`Set` iterates in insertion order; `add` is a no-op on a present element.
`Map` and plain objects (`Record`) iterate keys in insertion order (all keys
used by the analyzer are non-numeric strings); setting an existing key keeps
its position. -/

/-- JS `Set.add`. -/
def sadd (s : List String) (x : String) : List String :=
  if s.contains x then s else s ++ [x]

/-- JS `Set.delete` (sets hold no duplicates). -/
def sdelete (s : List String) (x : String) : List String :=
  s.filter (fun y => y ≠ x)

/-- JS `Map.get` / object property readFile. -/
def rget {α : Type} (m : List (String × α)) (k : String) : Option α :=
  (m.find? (fun p => p.1 == k)).map (fun p => p.2)

/-- JS `Map.set` / object property write: overwrite in place, else append. -/
def rset {α : Type} (m : List (String × α)) (k : String) (v : α) :
    List (String × α) :=
  if (m.find? (fun p => p.1 == k)).isSome then
    m.map (fun p => if p.1 == k then (k, v) else p)
  else m ++ [(k, v)]

/-- JS `Map.delete`. -/
def mdelete {α : Type} (m : List (String × α)) (k : String) :
    List (String × α) :=
  m.filter (fun p => p.1 ≠ k)

/-- `Object.values` / `Map.values`. -/
def mvalues {α : Type} (m : List (String × α)) : List α :=
  m.map (fun p => p.2)

/-- JS `String.indexOf` for a single character, as an optional char index. -/
def jsIndexOfChar (s : String) (c : Char) : Option Nat :=
  s.toList.findIdx? (fun d => d == c)

/-! ## Fluent AST (the external parser's node types, spec section 6)

The analyzer consumes `@fluent/syntax` nodes through the `ASTNode` union
declared in `types.ts`.  We model the constructors the analyzer dispatches on
(`collectVariables`) plus the remaining expression forms; spans are dropped
(the library's `equals` ignores them). -/

inductive ASTNode where
  | textElement (value : String)
  | placeable (expression : ASTNode)
  | variableReference (id : String)
  | messageReference (id : String)
  | termReference (id : String)
  | stringLiteral (value : String)
  | numberLiteral (value : String)
  | functionReference (id : String) (positional : List ASTNode)
      (named : List (String × ASTNode))
  | selectExpression (selector : ASTNode) (variants : List ASTNode)
  | variant (key : String) (value : List ASTNode) (dflt : Bool)

/-- A pattern: the value of a message, term, or attribute
(`ast.Pattern`, a list of text elements and placeables). -/
structure ASTPattern where
  elements : List ASTNode

mutual

/-- The parser library's structural-equality predicate `BaseNode.equals`
(spans ignored; child arrays compared element-wise in order), restricted to
the node types above. -/
def nodeEq : ASTNode → ASTNode → Bool
  | .textElement a, .textElement b => a == b
  | .placeable a, .placeable b => nodeEq a b
  | .variableReference a, .variableReference b => a == b
  | .messageReference a, .messageReference b => a == b
  | .termReference a, .termReference b => a == b
  | .stringLiteral a, .stringLiteral b => a == b
  | .numberLiteral a, .numberLiteral b => a == b
  | .functionReference i1 p1 n1, .functionReference i2 p2 n2 =>
      i1 == i2 && nodeListEq p1 p2 && namedListEq n1 n2
  | .selectExpression s1 v1, .selectExpression s2 v2 =>
      nodeEq s1 s2 && nodeListEq v1 v2
  | .variant k1 l1 d1, .variant k2 l2 d2 =>
      k1 == k2 && nodeListEq l1 l2 && d1 == d2
  | _, _ => false

/-- Element-wise equality of node arrays (see `nodeEq`). -/
def nodeListEq : List ASTNode → List ASTNode → Bool
  | [], [] => true
  | a :: as, b :: bs => nodeEq a b && nodeListEq as bs
  | _, _ => false

/-- Element-wise equality of named-argument arrays (see `nodeEq`). -/
def namedListEq :
    List (String × ASTNode) → List (String × ASTNode) → Bool
  | [], [] => true
  | (k1, v1) :: as, (k2, v2) :: bs =>
      k1 == k2 && nodeEq v1 v2 && namedListEq as bs
  | _, _ => false

end

/-- `pattern.equals(other)`: patterns are equal when their element lists are
structurally equal. -/
def patEq (p o : ASTPattern) : Bool :=
  nodeListEq p.elements o.elements

/-- `patternsEqual` from `helpers.ts` (lines 159-168): if either side is
absent, equal only when both are absent (`pattern === other`); otherwise the
library's structural `equals`. -/
def patternsEqual (pattern other : Option ASTPattern) : Bool :=
  match pattern, other with
  | none, none => true
  | none, some _ => false
  | some _, none => false
  | some p, some o => patEq p o

mutual

/-- Node count of an AST node (used only as a loop bound for the work-stack
walk below; `sizeOf` on this nested inductive is not executable). -/
def nodeWeight : ASTNode → Nat
  | .textElement _ => 1
  | .placeable e => 1 + nodeWeight e
  | .variableReference _ => 1
  | .messageReference _ => 1
  | .termReference _ => 1
  | .stringLiteral _ => 1
  | .numberLiteral _ => 1
  | .functionReference _ pos named =>
      1 + nodeListWeight pos + namedListWeight named
  | .selectExpression s vs => 1 + nodeWeight s + nodeListWeight vs
  | .variant _ l _ => 1 + nodeListWeight l

/-- Total node count of a node list (see `nodeWeight`). -/
def nodeListWeight : List ASTNode → Nat
  | [] => 0
  | a :: as => nodeWeight a + nodeListWeight as

/-- Total node count of a named-argument list (see `nodeWeight`). -/
def namedListWeight : List (String × ASTNode) → Nat
  | [] => 0
  | (_, v) :: as => nodeWeight v + namedListWeight as

end

/-! ## Spans, ranges, diagnostics (`types.ts`) -/

/-- `ISpan`: start/end offsets; the analyzer also uses negative offsets
(meaning "relative to the end of the content", see `spanToRange`).  The `end`
field is named `stop` (`end` is a Lean keyword). -/
structure ISpan where
  start : Int
  stop : Int
  deriving DecidableEq, Repr

/-- `IReportable` from `types.ts`. -/
structure IReportable where
  code : String
  message : String
  span : ISpan
  deriving DecidableEq, Repr

/-- A `DiagnosticRange` endpoint: 1-indexed line/column plus the raw index. -/
structure DiagnosticRangeElement where
  line : Nat
  column : Nat
  index : Int
  deriving DecidableEq, Repr

/-- `DiagnosticRange` (the `end` field is named `stop`; `spanToRange` always
fills both endpoints). -/
structure DiagnosticRange where
  start : DiagnosticRangeElement
  stop : DiagnosticRangeElement
  deriving DecidableEq, Repr

/-- The two severities the analyzer emits. -/
inductive DiagnosticSeverity where
  | Error
  | Warning
  deriving DecidableEq, Repr

/-- `DiagnosticInfo` from `types.ts`. -/
structure DiagnosticInfo where
  severity : DiagnosticSeverity
  message : String
  code : String
  uri : String
  range : DiagnosticRange
  deriving DecidableEq, Repr

/-- `TranslateType` from `types.ts`. -/
inductive TranslateType where
  | Required
  | Optional
  | Disallowed
  deriving DecidableEq, Repr

/-! ## Warning templates and rendering (`helpers.ts`) -/

/-- `WARN_ADD_LOWER` from `helpers.ts`. -/
def warnAddLower (code : String) : Bool :=
  code == "identical" || code == "mismatch-identical"

/-- The `WARN_STRINGS` table from `helpers.ts` (the analyzer only looks up
the listed codes, so the default branch is unreachable). -/
def warnTemplate (code : String) : String :=
  match code with
  | "do-not-translate" => "{0} \"{1}\" should not be translated"
  | "identical" => "{0} \"{1}\" is identical to the source locale {2}"
  | "duplicate" => "Duplicate {0} \"{1}\""
  | "mismatch-identical" =>
      "{0} \"{1}\" should be identical to the source locale {2}"
  | "mismatch-file-bundle" =>
      "File {0} is assigned to the {1} bundle, but to the {2} bundle in the source locale"
  | "unknown-file" =>
      "File {0} does not have a corresponding file in the source locale"
  | "unknown-message" =>
      "Message \"{0}\" is defined here, but is not defined in the source locale"
  | "unknown-attribute" =>
      "Attribute \"{0}\" is defined here, but is not defined in the source locale"
  | "unknown-variable" =>
      "Variable \"{0}\" is used here, but is not used or declared in the source locale {1}"
  | "missing-file" => "File {0} is missing"
  | "missing-message" => "Message \"{0}\" is missing"
  | "missing-attribute" => "Attribute \"{0}\" is missing"
  | "missing-required-variable" =>
      "Variable {0} is required, but missing in {1} \"{2}\""
  | "annotation-missing" => "Annotation \"{0}\" is missing for {1} \"{2}\""
  | "annotation-type-mismatch" =>
      "Annotation \"{0}\" type does not match the source locale for {1} \"{2}\""
  | _ => ""

/-- `parseInt` on a plain digit string. -/
def digitsToNat (ds : List Char) : Nat :=
  ds.foldl (fun n c => n * 10 + (c.toNat - '0'.toNat)) 0

/-- The template replacement `/{(\d+)}/g` → `args[n] || match` from
`createWarning`: a falsy (empty or out-of-range) argument keeps the literal
placeholder.  Fuel starts at the character count and decreases every step, so
it never runs out. -/
def formatChars (fuel : Nat) (cs : List Char) (args : List String) : String :=
  match fuel with
  | 0 => String.mk cs
  | fuel + 1 =>
    match cs with
    | [] => ""
    | c :: rest =>
      if c = '{' then
        let ds := rest.takeWhile Char.isDigit
        let rest2 := rest.drop ds.length
        match ds, rest2 with
        | _ :: _, '}' :: rest3 =>
            let rep := args.getD (digitsToNat ds) ""
            (if rep = "" then String.mk ('{' :: (ds ++ ['}'])) else rep)
              ++ formatChars fuel rest3 args
        | _, _ => String.mk [c] ++ formatChars fuel rest args
      else String.mk [c] ++ formatChars fuel rest args

/-- `createWarning` from `helpers.ts` (lines 93-108): for
`identical`/`mismatch-identical` the lowercased first argument is appended as
an extra argument, then the template's `{n}` placeholders are substituted. -/
def createWarning (code : String) (span : ISpan) (args : List String) :
    IReportable :=
  let args := if warnAddLower code then args ++ [(args.headD "").toLower]
    else args
  let tmpl := warnTemplate code
  { code := code,
    message := formatChars tmpl.toList.length tmpl.toList args,
    span := span }

/-- `getWarningCategory` from `helpers.ts` (lines 142-154): the substring
before the first `-`, except `do-not-translate` which is its own category. -/
def getWarningCategory (code : String) : String :=
  if code == "do-not-translate" then code
  else
    match jsIndexOfChar code '-' with
    | none => code
    | some dash => code.take dash

/-- `getBundleDisplay` from `helpers.ts`. -/
def getBundleDisplay (bundle : Option String) : String :=
  match bundle with
  | some "" => "global"
  | none => "default"
  | some b => "\"" ++ b ++ "\""

/-- `getLineAndCol` from `helpers.ts` (lines 52-68): count lines/columns over
the first `idx` character positions (out-of-range positions still advance the
column, as JS indexing past the end yields `undefined ≠ '\n'`). -/
def getLineAndCol (text : String) (idx : Int) : Nat × Nat :=
  let chars := text.toList
  (List.range idx.toNat).foldl
    (fun lc i =>
      let lc := (lc.1, lc.2 + 1)
      if chars.get? i = some '\n' then (lc.1 + 1, 1) else lc)
    (1, 1)

/-- `spanToRange` from `helpers.ts` (lines 198-217): negative offsets are
relative to the end of the content. -/
def spanToRange (span : ISpan) (content : String) : DiagnosticRange :=
  let start := if span.start < 0 then content.length + span.start
    else span.start
  let stop := if span.stop < 0 then content.length + span.stop else span.stop
  let s := getLineAndCol content start
  let e := getLineAndCol content stop
  { start := { line := s.1, column := s.2, index := start },
    stop := { line := e.1, column := e.2, index := stop } }

/-! ## Annotation extraction (`readAnnots`, `helpers.ts` lines 173-193) -/

/-- One `@name value` directive (named `AnnotItem`; the source's name for
this record ends in a word this development avoids). -/
structure AnnotItem where
  name : String
  value : String
  deriving DecidableEq, Repr

/-- The result of extracting directives out of a comment
(`ExtractedComment`). -/
structure ExtractedComment where
  comment : String
  annots : List AnnotItem
  deriving DecidableEq, Repr

/-- The chunks matched by `REGEXP_LINE` (`/[^\n]*\n|[^\n]+/g`): maximal runs
up to and including a newline, plus a trailing newline-free run.  Fuel starts
at the character count and decreases every step. -/
def splitChunks (fuel : Nat) (cs : List Char) : List String :=
  match fuel with
  | 0 => if cs = [] then [] else [String.mk cs]
  | fuel + 1 =>
    match cs with
    | [] => []
    | _ =>
      let line := cs.takeWhile (fun c => c ≠ '\n')
      match cs.drop line.length with
      | '\n' :: rest => String.mk (line ++ ['\n']) :: splitChunks fuel rest
      | _ => [String.mk line]

/-- `readAnnots` from `helpers.ts`: split the comment into line chunks;
chunks starting with `@` become directives (name up to the first space, rest
trimmed as the value; a bare `@name` keeps its line trimmed right), the other
chunks are re-joined (with their own newlines kept) and trimmed. -/
def readAnnots (content : String) : ExtractedComment :=
  let chunks := splitChunks content.toList.length content.toList
  let step := fun (acc : List String × List AnnotItem) (m : String) =>
    if m.startsWith "@" then
      let space := jsIndexOfChar m ' '
      let name := match space with
        | some i => m.take i
        | none => m.trimRight
      let value := match space with
        | some i => (m.drop (i + 1)).trim
        | none => ""
      (acc.1, acc.2 ++ [{ name := name, value := value }])
    else (acc.1 ++ [m], acc.2)
  let acc := chunks.foldl step ([], [])
  let comment := if acc.1.length > 0 then (String.intercalate "\n" acc.1).trim
    else ""
  { comment := comment, annots := acc.2 }

/-! ## Entry records (`types.ts`) -/

/-- `ParamInfo` from `types.ts`. -/
structure ParamInfo where
  id : String
  required : Bool
  type : Option String
  comment : Option String
  deriving DecidableEq, Repr

/-- `AttributeInfo` (`ElementInfo<ast.Pattern>`): optional fields present in
the TS type but unset at construction (`expectIdentical`) default to the
value their `undefined` behaves as. -/
structure AttributeInfo where
  id : String
  name : String
  value : ASTPattern
  idSpan : ISpan
  translate : TranslateType
  expectIdentical : Bool := false
  params : List (String × ParamInfo) := []
  vars : List String := []

/-- `MessageInfo`/`TermInfo` (`BaseMessageInfo`): one record with the
`isTerm` discriminant, exactly as in `types.ts`. -/
structure MessageInfo where
  isTerm : Bool
  id : String
  name : String
  value : Option ASTPattern
  idSpan : ISpan
  translate : TranslateType
  expectIdentical : Bool := false
  params : List (String × ParamInfo) := []
  vars : List String := []
  comment : Option String := none
  attributes : List (String × AttributeInfo) := []
  ignoreAll : Bool := false
  ignore : List String := []

/-- `EntryInfo = MessageInfo | TermInfo | AttributeInfo`; the TS code
distinguishes the cases with `'isTerm' in entry`, which the constructor tag
captures (`msg` covers both messages and terms). -/
inductive EntryInfo where
  | msg (m : MessageInfo)
  | attr (a : AttributeInfo)

/-- The identifier span of an entry (`entry.idSpan`). -/
def EntryInfo.idSpan : EntryInfo → ISpan
  | .msg m => m.idSpan
  | .attr a => a.idSpan

/-- The identifier of an entry (`entry.id`). -/
def EntryInfo.id : EntryInfo → String
  | .msg m => m.id
  | .attr a => a.id

/-- The display name of an entry (`entry.name`). -/
def EntryInfo.name : EntryInfo → String
  | .msg m => m.name
  | .attr a => a.name

/-- The declared parameters of an entry (`entry.params`). -/
def EntryInfo.params : EntryInfo → List (String × ParamInfo)
  | .msg m => m.params
  | .attr a => a.params

/-- The referenced variables of an entry (the source field `variables` is a
reserved word in Lean and is named `vars` throughout). -/
def EntryInfo.vars : EntryInfo → List String
  | .msg m => m.vars
  | .attr a => a.vars

/-! ## Files, groups, collections (`types.ts`) -/

/-- `PathInfo` from `types.ts`. -/
structure PathInfo where
  uri : String
  absolute : String
  relative : String
  deriving DecidableEq, Repr

/-- One annotated junk annotation reported by the parser (`ast.Annotation`:
a reportable code/message/span triple). -/
structure JunkAnnot where
  code : String
  message : String
  span : ISpan
  deriving DecidableEq, Repr

/-- The raw attribute data of a parsed `Message`/`Term`
(`ast.Attribute`: id with span, pattern value). -/
structure AstAttr where
  id : String
  idSpan : ISpan
  value : ASTPattern

/-- The raw data of a parsed `Message`/`Term` (`ast.Message`/`ast.Term`:
id with span, optional pattern, attributes, optional leading comment whose
`content` is the raw comment text). -/
structure AstEntryData where
  id : String
  idSpan : ISpan
  value : Option ASTPattern
  attributes : List AstAttr
  comment : Option String

/-- One top-level item of the external parser's output
(`WithSpan<ast.Entry>` restricted to the four cases `readFile` dispatches on;
other entry types fall through `readFile`'s switch and are modelled by
`skipped`). -/
inductive FtlEntry where
  | term (data : AstEntryData)
  | message (data : AstEntryData)
  | resourceComment (content : String)
  | junk (annots : List JunkAnnot)
  | skipped

/-- What the external parser produces for a file's on-disk bytes: the raw
text and the parsed body.  `FileInfo.parsed` below carries this as the oracle
for the `fs.readFile` + `ast.parse` step (`none` models a read failure). -/
structure ParseData where
  content : String
  body : List FtlEntry

/-- `FileInfo` from `types.ts`.  The `hash` field is modelled by the hashed
content itself (the external murmurhash is injective for the analyzer's
purposes: the hash only gates re-parsing). -/
structure FileInfo where
  name : String
  path : PathInfo
  content : String := ""
  terms : List MessageInfo := []
  messages : List MessageInfo := []
  bundle : Option String := none
  ignore : Option (List String) := none
  hash : Option String := none
  parsed : Option ParseData := none

/-- `FileGroup` from `types.ts`. -/
structure FileGroup where
  locale : String
  files : List (String × FileInfo)

/-- `FileCollection` from `types.ts`. -/
structure FileCollection where
  path : PathInfo
  groups : List (String × FileGroup)

/-- `AnnotationState` from `types.ts` (named `AnnotState` here; optional
boolean flags default to the value `undefined` behaves as). -/
structure AnnotState where
  translate : TranslateType
  file : FileInfo
  bundle : Option String := none
  global : Bool := false
  ignore : List String := []
  ignoreAll : Bool := false

/-! ## Variable collection (`FtlAnalyzer.collectVariables`, lines 409-443)

The explicit work-stack is a JS array pushed/popped at its end; we keep the
top of the stack at the head, so JS `push(a, b, c)` prepends `[c, b, a]`.
Fuel starts at the total node count of the element list, which bounds the
number of iterations (every visit pops one node and pushes only its own
children), so the loop never runs out. -/

/-- The `while (stack.length > 0)` loop of `collectVariables`: a popped
`VariableReference` records its id; `Placeable` pushes its expression;
`FunctionReference` pushes its positional arguments (named arguments can
only use literals); `SelectExpression` pushes its selector and its variants;
every other node type — including `Variant` — falls through the switch. -/
def collectLoop (fuel : Nat) (stack : List ASTNode) (vars : List String) :
    List String :=
  match fuel with
  | 0 => vars
  | fuel + 1 =>
    match stack with
    | [] => vars
    | el :: stack =>
      match el with
      | .variableReference id => collectLoop fuel stack (sadd vars id)
      | .placeable e => collectLoop fuel (e :: stack) vars
      | .functionReference _ pos _ =>
          collectLoop fuel (pos.reverse ++ stack) vars
      | .selectExpression sel vs =>
          collectLoop fuel (vs.reverse ++ (sel :: stack)) vars
      | _ => collectLoop fuel stack vars

/-- `collectVariables`: walk a pattern's expression tree with an explicit
work-stack and record every variable-reference identifier encountered. -/
def collectVariables (pattern : Option ASTPattern) : List String :=
  match pattern with
  | none => []
  | some p => collectLoop (nodeListWeight p.elements) p.elements.reverse []

/-! ## POSIX path helpers (node's `path`, for the clean slash-separated
paths the analyzer builds; no `.`/`..` normalization is ever needed on
them) -/

/-- `path.join`: join non-empty parts with `/`. -/
def pathJoin (parts : List String) : String :=
  let s := String.intercalate "/" (parts.filter (fun p => p ≠ ""))
  if s == "" then "." else s

/-- `path.dirname` for POSIX paths. -/
def pathDirname (p : String) : String :=
  let parts := p.splitOn "/"
  if parts.length ≤ 1 then "."
  else
    let d := String.intercalate "/" parts.dropLast
    if d == "" then "/" else d

/-! ## The analyzer (`FtlAnalyzer.ts`) -/

/-- The `FtlAnalyzer` instance state (constructor, lines 76-81):
source locale, engine-wide ignore set, the per-URI diagnostic store, and the
relative-path display flag. -/
structure Analyzer where
  sourceLocale : String
  ignore : List String
  diagnostics : List (String × List DiagnosticInfo)
  useRelativePaths : Bool

/-- `getDiagnostics` (lines 93-100): flatten all per-URI lists in map
order. -/
def Analyzer.getDiagnostics (a : Analyzer) : List DiagnosticInfo :=
  a.diagnostics.foldl (fun all p => all ++ p.2) []

/-- `getDiagnosticsForUri` (lines 105-107). -/
def Analyzer.getDiagnosticsForUri (a : Analyzer) (uri : String) :
    List DiagnosticInfo :=
  (rget a.diagnostics uri).getD []

/-- `getDisplayPath` (lines 761-763). -/
def getDisplayPath (a : Analyzer) (file : FileInfo) : String :=
  if a.useRelativePaths then file.path.relative else file.path.absolute

/-- `shouldIgnore` (lines 1090-1101): the given ignore sets plus the
engine-wide one; a code is ignored when any of them contains the exact code
or its category. -/
def shouldIgnore (a : Analyzer) (code : String)
    (ignoreSets : List (List String)) : Bool :=
  let sets := ignoreSets ++ [a.ignore]
  let cat := getWarningCategory code
  sets.any (fun s => s.contains code || s.contains cat)

/-- The diagnostic record `addDiagnostic` builds (lines 152-158): the
report rendered against the file's URI and content. -/
def mkDiagnostic (severity : DiagnosticSeverity) (file : FileInfo)
    (report : IReportable) : DiagnosticInfo :=
  { severity := severity, message := report.message, code := report.code,
    uri := file.path.uri, range := spanToRange report.span file.content }

/-- `getOrDefault(map, uri, []).push(d)`: append to the list keyed by the
URI, creating it on first use. -/
def pushDiag (m : List (String × List DiagnosticInfo)) (uri : String)
    (d : DiagnosticInfo) : List (String × List DiagnosticInfo) :=
  if (m.find? (fun p => p.1 == uri)).isSome then
    m.map (fun p => if p.1 == uri then (p.1, p.2 ++ [d]) else p)
  else m ++ [(uri, [d])]

/-- `addDiagnostic` (lines 147-159). -/
def addDiagnostic (a : Analyzer) (severity : DiagnosticSeverity)
    (file : FileInfo) (report : IReportable) : Analyzer :=
  let d := mkDiagnostic severity file report
  { a with diagnostics := pushDiag a.diagnostics file.path.uri d }

/-- `addEntryWarning` (lines 164-185): only messages and terms
(`'isTerm' in entry`) are checked against `ignoreAll` and the
entry-level/engine-level ignore sets; attribute targets skip both checks. -/
def addEntryWarning (a : Analyzer) (file : FileInfo) (entry : EntryInfo)
    (code : String) (args : List String) : Analyzer :=
  match entry with
  | .msg m =>
    if m.ignoreAll then a
    else if shouldIgnore a code [m.ignore] then a
    else addDiagnostic a .Warning file (createWarning code m.idSpan args)
  | .attr at_ =>
      addDiagnostic a .Warning file (createWarning code at_.idSpan args)

/-- `addError` (lines 190-192). -/
def addError (a : Analyzer) (file : FileInfo) (report : IReportable) :
    Analyzer :=
  addDiagnostic a .Error file report

/-- `addWarning` (lines 254-265). -/
def addWarning (a : Analyzer) (file : FileInfo) (code : String)
    (span : ISpan) (args : List String) : Analyzer :=
  addDiagnostic a .Warning file (createWarning code span args)

/-- `addMissingFileWarning` (lines 198-213): suppressed when the source
file's ignore set contains `missing-file`; otherwise warn at offset 0 with
the synthesized sibling-locale path. -/
def addMissingFileWarning (a : Analyzer) (srcFile : FileInfo)
    (locale : String) : Analyzer :=
  if (srcFile.ignore.getD []).contains "missing-file" then a
  else
    addWarning a srcFile "missing-file" { start := 0, stop := 0 }
      [pathJoin [pathDirname (pathDirname (getDisplayPath a srcFile)),
        locale, srcFile.name ++ ".ftl"]]

/-- `addMissingMessageWarning` (lines 218-233): suppressed when the target
file's ignore set contains `missing-message` or the source message's policy
is not `Required`; the end-relative span `{-1,-1}` points at the content
end. -/
def addMissingMessageWarning (a : Analyzer) (file : FileInfo)
    (message : MessageInfo) : Analyzer :=
  if (file.ignore.getD []).contains "missing-message" then a
  else if message.translate ≠ TranslateType.Required then a
  else
    addWarning a file "missing-message" { start := -1, stop := -1 }
      [message.name]

/-- `addUnknownFileWarning` (lines 238-249). -/
def addUnknownFileWarning (a : Analyzer) (file : FileInfo) : Analyzer :=
  if (file.ignore.getD []).contains "unknown-file" then a
  else
    addWarning a file "unknown-file" { start := 0, stop := 0 }
      [getDisplayPath a file]

/-! ## Annotation handlers (`FtlAnalyzer.ts`, lines 768-974)

`handleDiagnosticAnnotation` acts identically on an entry record or on the
resource-level state (both expose `ignore`/`ignoreAll`); `diagnosticCore`
captures that shared body once and the two wrappers apply it. -/

/-- The body of `handleDiagnosticAnnotation` (lines 799-831).  Note the
source quirks kept here: when the value holds no space, `slice(0)` keeps the
whole value (so a bare `disable` value deletes the literal code `disable`
instead of setting `ignoreAll`), and `enable` *adds* to the ignore set while
`disable` removes. -/
def diagnosticCore (ignoreAll : Bool) (ignore : List String)
    (annot : AnnotItem) : Bool × List String :=
  let value := annot.value
  let space := jsIndexOfChar value ' '
  let firstWord := match space with
    | none => value
    | some i => value.take i
  let enable := firstWord == "enable"
  let value := (match space with
    | none => value
    | some i => value.drop (i + 1)).trim
  if ¬enable ∧ firstWord ≠ "disable" then (ignoreAll, ignore)
  else
    let sliceEnd := jsIndexOfChar value '#'
    let value := (match sliceEnd with
      | none => value
      | some i => value.take i).trim
    let ignoreAll := if value == "" then ¬enable else ignoreAll
    let list := ((value.splitOn ",").map String.trim).filter (fun x => x ≠ "")
    let ignore := if enable then list.foldl sadd ignore
      else list.foldl sdelete ignore
    (ignoreAll, ignore)

/-- `handleDiagnosticAnnotation` applied to a message/term record. -/
def handleDiagnosticAnnotEntry (info : MessageInfo) (annot : AnnotItem) :
    MessageInfo :=
  let r := diagnosticCore info.ignoreAll info.ignore annot
  { info with ignoreAll := r.1, ignore := r.2 }

/-- `handleDiagnosticAnnotation` applied to the resource-level state. -/
def handleDiagnosticAnnotState (state : AnnotState) (annot : AnnotItem) :
    AnnotState :=
  let r := diagnosticCore state.ignoreAll state.ignore annot
  { state with ignoreAll := r.1, ignore := r.2 }

/-- `[\w_-]` of `REGEXP_PARAM`: word characters plus `-`. -/
def isWordChar (c : Char) : Bool :=
  c.isAlphanum || c = '_' || c = '-'

/-- The common tail of `REGEXP_PARAM` / `REGEXP_PARAM_ATTR` starting at the
`\$` anchor: `\$([A-Za-z][\w_-]*)(\??)(?:\s+([^# ]+))?(.*)$`.  Returns
(id, optional-mark matched, type group if it participated, final group).
The optional type group is modelled without regex backtracking (equivalent
whenever the whitespace run consists of spaces, which is the annotation
grammar's case). -/
def regexParamTail (cs : List Char) :
    Option (String × Bool × Option String × String) :=
  match cs with
  | '$' :: c :: rest =>
    if c.isAlpha then
      let nameChars := rest.takeWhile isWordChar
      let after1 := rest.drop nameChars.length
      let optRes : Bool × List Char := match after1 with
        | '?' :: t => (true, t)
        | _ => (false, after1)
      let after2 := optRes.2
      let ws := after2.takeWhile Char.isWhitespace
      let tGroup := (after2.drop ws.length).takeWhile
        (fun ch => ch ≠ '#' ∧ ch ≠ ' ')
      if ws ≠ [] ∧ tGroup ≠ [] then
        some (String.mk (c :: nameChars), optRes.1, some (String.mk tGroup),
          String.mk ((after2.drop ws.length).drop tGroup.length))
      else
        some (String.mk (c :: nameChars), optRes.1, none, String.mk after2)
    else none
  | _ => none

/-- `REGEXP_PARAM_ATTR`'s leading `([A-Za-z][\w_-]*)\s+` before the shared
tail. -/
def regexParamAttr (cs : List Char) :
    Option (String × String × Bool × Option String × String) :=
  match cs with
  | c :: rest =>
    if c.isAlpha then
      let nameChars := rest.takeWhile isWordChar
      let after1 := rest.drop nameChars.length
      let ws := after1.takeWhile Char.isWhitespace
      if ws = [] then none
      else
        (regexParamTail (after1.drop ws.length)).map
          (fun r => (String.mk (c :: nameChars), r))
    else none
  | _ => none

/-- `handleParamAnnotation` (lines 836-872).  When the regex's optional type
group does not participate the source would fault on `undefined.trim()`;
that path (no whitespace after the parameter name) is modelled as skipping
the directive and is exercised by no claim. -/
def handleParamAnnot (info : MessageInfo) (annot : AnnotItem) : MessageInfo :=
  let isAttr := annot.name == "@param-attribute"
  let parsed : Option (Option String × String × Bool × Option String × String) :=
    if isAttr then
      (regexParamAttr annot.value.toList).map
        (fun r => (some r.1, r.2.1, r.2.2.1, r.2.2.2.1, r.2.2.2.2))
    else
      (regexParamTail annot.value.toList).map
        (fun r => (none, r.1, r.2.1, r.2.2.1, r.2.2.2))
  match parsed with
  | none => info
  | some (attrName, id, optMark, typeGroup, restGroup) =>
    match typeGroup with
    | none => info
    | some tg =>
      let required := ¬optMark
      let type := tg.trim
      let comment := restGroup.trim
      let param : ParamInfo :=
        { id := id, required := required,
          type := if type ≠ "" then some type else none,
          comment := if comment ≠ "" then some comment else none }
      match attrName with
      | none => { info with params := rset info.params id param }
      | some an =>
        match rget info.attributes an with
        | some attr =>
            { info with attributes := (rset info.attributes an
                { attr with params := rset attr.params id param }) }
        | none => info

/-- The property/value pairs of `handleTargetedAnnotation`'s switch, applied
to a message/term record. -/
def setTargetedOnEntry (info : MessageInfo) (annotName : String) :
    MessageInfo :=
  match annotName with
  | "@expect-identical" => { info with expectIdentical := true }
  | "@translate" => { info with translate := TranslateType.Required }
  | "@do-not-translate" => { info with translate := TranslateType.Disallowed }
  | "@translate-optional" => { info with translate := TranslateType.Optional }
  | _ => info

/-- The property/value pairs of `handleTargetedAnnotation`'s switch, applied
to an attribute record. -/
def setTargetedOnAttr (attr : AttributeInfo) (annotName : String) :
    AttributeInfo :=
  match annotName with
  | "@expect-identical" => { attr with expectIdentical := true }
  | "@translate" => { attr with translate := TranslateType.Required }
  | "@do-not-translate" => { attr with translate := TranslateType.Disallowed }
  | "@translate-optional" => { attr with translate := TranslateType.Optional }
  | _ => attr

/-- `handleTargetedAnnotation` (lines 913-974): an empty value (after
stripping a `#` comment) targets the entry itself, `*` targets every
attribute, any other value targets the attribute of that name (silently
ignored when absent). -/
def handleTargetedAnnot (info : MessageInfo) (annot : AnnotItem) :
    MessageInfo :=
  let sliceEnd := jsIndexOfChar annot.value '#'
  let annotValue := (match sliceEnd with
    | none => annot.value
    | some i => annot.value.take i).trim
  if annotValue == "" then setTargetedOnEntry info annot.name
  else if annotValue == "*" then
    { info with attributes := (info.attributes.map
        (fun p => (p.1, setTargetedOnAttr p.2 annot.name))) }
  else
    match rget info.attributes annotValue with
    | some attr =>
        { info with attributes := (rset info.attributes annotValue
            (setTargetedOnAttr attr annot.name)) }
    | none => info

/-- `handleEntryAnnotations` (lines 768-794). -/
def handleEntryAnnots (info : MessageInfo) (annots : List AnnotItem) :
    MessageInfo :=
  annots.foldl
    (fun info annot =>
      match annot.name with
      | "@diagnostic" => handleDiagnosticAnnotEntry info annot
      | "@param" => handleParamAnnot info annot
      | "@param-attribute" => handleParamAnnot info annot
      | "@expect-identical" => handleTargetedAnnot info annot
      | "@translate" => handleTargetedAnnot info annot
      | "@do-not-translate" => handleTargetedAnnot info annot
      | "@translate-optional" => handleTargetedAnnot info annot
      | _ => info)
    info

/-- `handleResourceAnnotations` (lines 877-908). -/
def handleResourceAnnots (state : AnnotState) (annots : List AnnotItem) :
    AnnotState :=
  annots.foldl
    (fun state annot =>
      match annot.name with
      | "@diagnostic" => handleDiagnosticAnnotState state annot
      | "@global" => { state with global := true }
      | "@bundle" =>
          { state with bundle := if annot.value ≠ "" then some annot.value
              else none }
      | "@translate" => { state with translate := TranslateType.Required }
      | "@do-not-translate" =>
          { state with translate := TranslateType.Disallowed }
      | "@translate-optional" =>
          { state with translate := TranslateType.Optional }
      | _ => state)
    state

/-! ## Entry conversion and the readFile pass (`FtlAnalyzer.ts`) -/

/-- One step of the `entry.attributes.reduce` inside `convertMessage`
(lines 720-743): build the attribute record, warn on a repeated id, store
it. -/
def convertAttrStep (state : AnnotState) (name : String)
    (acc : Analyzer × List (String × AttributeInfo)) (attr : AstAttr) :
    Analyzer × List (String × AttributeInfo) :=
  let attrInfo : AttributeInfo :=
    { id := attr.id, name := name ++ "." ++ attr.id,
      idSpan := attr.idSpan, translate := state.translate,
      value := attr.value, params := [],
      vars := collectVariables (some attr.value) }
  let a := if (rget acc.2 attr.id).isSome then
      addEntryWarning acc.1 state.file (.attr attrInfo) "duplicate"
        ["attribute", attrInfo.name]
    else acc.1
  (a, rset acc.2 attr.id attrInfo)

/-- `convertMessage` (lines 698-756): build the info record (terms get a
`-`-prefixed display name and an id span widened one character to the left),
convert attributes in order with a `duplicate` attribute warning on a
repeated id, then apply the entry's comment directives.  The per-entry
ignore set is a copy of the resource-level one (`new Set(state.ignore)`). -/
def convertMessage (a : Analyzer) (entry : AstEntryData) (state : AnnotState)
    (isTerm : Bool) : Analyzer × MessageInfo :=
  let span := entry.idSpan
  let ignore := state.ignore
  let name := if isTerm then "-" ++ entry.id else entry.id
  let conv := entry.attributes.foldl (convertAttrStep state name) (a, [])
  let idSpan : ISpan :=
    { start := if isTerm then span.start - 1 else span.start,
      stop := span.stop }
  let info : MessageInfo :=
    { isTerm := isTerm, id := entry.id, name := name, idSpan := idSpan,
      ignore := ignore, translate := state.translate,
      value := entry.value, vars := collectVariables entry.value,
      params := [], attributes := conv.2 }
  match entry.comment with
  | none => (conv.1, info)
  | some c =>
    let ec := readAnnots c
    let info := handleEntryAnnots info ec.annots
    let info := if ec.comment ≠ "" then { info with comment := some ec.comment }
      else info
    (conv.1, info)

/-- `parse` (lines 1064-1085), with the file-system read and the external
parser replaced by the `parsed` oracle carried on the file record: a failed
readFile returns nothing and leaves the file untouched; a successful parse
stores the content and its hash. -/
def parse (file : FileInfo) : Option (List FtlEntry) × FileInfo :=
  match file.parsed with
  | none => (none, file)
  | some pd =>
      (some pd.body,
        { file with content := pd.content, hash := some pd.content })

/-- One `addError` call of `readFile`'s junk loop (lines 1013-1018). -/
def addJunkError (file : FileInfo) (a : Analyzer) (an : JunkAnnot) :
    Analyzer :=
  addError a file { code := an.code, message := an.message, span := an.span }

/-- One step of `readFile`'s entry loop (lines 995-1020). -/
def readEntryStep (acc : Analyzer × FileInfo × AnnotState)
    (entry : FtlEntry) : Analyzer × FileInfo × AnnotState :=
  let a := acc.1
  let file := acc.2.1
  let state := acc.2.2
  match entry with
  | .term d =>
      let r := convertMessage a d state true
      (r.1, { file with terms := file.terms ++ [r.2] }, state)
  | .message d =>
      let r := convertMessage a d state false
      (r.1, { file with messages := file.messages ++ [r.2] }, state)
  | .resourceComment content =>
      (a, file, handleResourceAnnots state (readAnnots content).annots)
  | .junk annots =>
      (annots.foldl (addJunkError file) a, file, state)
  | .skipped => (a, file, state)

/-- The analyzer's `read` method (lines 982-1050), named `readFile` here to
avoid a clash with the ambient monad-reader `read`: clear the file's
diagnostic list first, then
parse; on read failure stop (the deletion stands).  Otherwise convert every
entry under the threaded resource state, then apply the resource-level
bundle/global flags and derive the file-level `unknown-file`/`missing-file`
ignore entries. -/
def readFile (a : Analyzer) (file : FileInfo) : Analyzer × FileInfo :=
  let a := { a with diagnostics := mdelete a.diagnostics file.path.uri }
  match parse file with
  | (none, file) => (a, file)
  | (some entries, file) =>
    let state0 : AnnotState :=
      { file := file, ignore := [], translate := TranslateType.Required }
    let r := entries.foldl readEntryStep (a, file, state0)
    let a := r.1
    let file := r.2.1
    let state := r.2.2
    let file := if state.global then { file with bundle := some "" }
      else if (state.bundle.getD "") ≠ "" then
        { file with bundle := state.bundle }
      else file
    let ignoreUnknownFile := state.ignoreAll
      || state.ignore.contains "unknown-file"
      || state.ignore.contains "unknown"
    let file := if ignoreUnknownFile then
        { file with ignore := some (sadd (file.ignore.getD []) "unknown-file") }
      else file
    let ignoreMissingFile := state.ignoreAll
      || decide (state.translate ≠ TranslateType.Required)
      || state.ignore.contains "missing-file"
      || state.ignore.contains "missing"
    let file := if ignoreMissingFile then
        { file with ignore := some (sadd (file.ignore.getD []) "missing-file") }
      else file
    (a, file)

/-- The entry loop of `read` (lines 989-1020), after the diagnostic-list
clear and a successful parse: the fold `readFile` computes before deriving
the file-level ignore entries. -/
def readLoop (a : Analyzer) (file : FileInfo) (pd : ParseData) :
    Analyzer × FileInfo × AnnotState :=
  let a := { a with diagnostics := mdelete a.diagnostics file.path.uri }
  let file := { file with content := pd.content, hash := some pd.content }
  let state0 : AnnotState :=
    { file := file, ignore := [], translate := TranslateType.Required }
  pd.body.foldl readEntryStep (a, file, state0)

/-- The resource-annotation state the `read` pass ends with. -/
def readState (a : Analyzer) (file : FileInfo) (pd : ParseData) :
    AnnotState :=
  (readLoop a file pd).2.2

/-- `read`'s `ignoreMissingFile` condition (lines 1038-1044): disable-all,
a non-`Required` resource translation policy, or a resource annotation
disabling the `missing-file` code or the `missing` category. -/
def ignoreMissingFileCond (state : AnnotState) : Bool :=
  state.ignoreAll
    || decide (state.translate ≠ TranslateType.Required)
    || state.ignore.contains "missing-file"
    || state.ignore.contains "missing"

/-- The tail of `read` (lines 1022-1049) as a function of the entry loop's
results: apply the resource-level bundle/global flags, then derive the
file-level `unknown-file`/`missing-file` ignore entries. -/
def readFileTail (a1 : Analyzer) (f1 : FileInfo) (st : AnnotState) :
    Analyzer × FileInfo :=
  let file := if st.global then { f1 with bundle := some "" }
    else if (st.bundle.getD "") ≠ "" then { f1 with bundle := st.bundle }
    else f1
  let ignoreUnknownFile := st.ignoreAll
    || st.ignore.contains "unknown-file"
    || st.ignore.contains "unknown"
  let file := if ignoreUnknownFile then
      { file with ignore := some (sadd (file.ignore.getD []) "unknown-file") }
    else file
  let file := if ignoreMissingFileCond st then
      { file with ignore := some (sadd (file.ignore.getD []) "missing-file") }
    else file
  (a1, file)

/-- `readGroup` (lines 1055-1059): readFile every file of the group in map
order (the JS code mutates the `FileInfo` records in place; here the group
is rebuilt with the updated records under their unchanged keys). -/
def readGroup (a : Analyzer) (group : FileGroup) : Analyzer × FileGroup :=
  let r := group.files.foldl
    (fun (acc : Analyzer × List (String × FileInfo)) p =>
      let r := readFile acc.1 p.2
      (r.1, acc.2 ++ [(p.1, r.2)]))
    (a, [])
  (r.1, { group with files := r.2 })

/-! ## Parameter and variable checks (`FtlAnalyzer.ts`, lines 270-366) -/

/-- `checkParams` (lines 287-366): overlay the source entry's declared
parameters with the target's (target wins on a name collision, with an
`annotation-type-mismatch` when the declared types differ); then flag
source-side variables lacking a declaration (`annotation-missing`),
target-side variables neither used by source nor declared
(`unknown-variable`), and required parameters whose variable the entry never
references (`missing-required-variable`). -/
def checkParams (a : Analyzer) (file : FileInfo) (entry : EntryInfo)
    (srcEntry : Option EntryInfo) (isSrc : Bool) (isAttr : Bool) : Analyzer :=
  let type := if isAttr then "attribute" else "message"
  let params : List (String × ParamInfo) :=
    match srcEntry with
    | some se => (mvalues se.params).foldl (fun ps p => rset ps p.id p) []
    | none => []
  let overlay := (mvalues entry.params).foldl
    (fun (acc : Analyzer × List (String × ParamInfo)) param =>
      let srcParam := rget acc.2 param.id
      let ps := rset acc.2 param.id param
      let a := match srcParam with
        | some sp =>
          if sp.type ≠ param.type then
            addEntryWarning acc.1 file entry "annotation-type-mismatch"
              [if isAttr then
                  "@param-attribute " ++ entry.id ++ " $" ++ param.id
                else "@param $" ++ param.id,
                type, entry.name]
          else acc.1
        | none => acc.1
      (a, ps))
    (a, params)
  let a := overlay.1
  let params := overlay.2
  let a := entry.vars.foldl
    (fun a vbl =>
      let a := if isSrc ∧ (rget params vbl).isNone then
          addEntryWarning a file entry "annotation-missing"
            [if isAttr then
                "@param-attribute " ++ entry.id ++ " $" ++ vbl
              else "@param $" ++ vbl,
              type, entry.name]
        else a
      if isSrc ∨ srcEntry.isNone then a
      else
        match srcEntry with
        | some se =>
          if ¬se.vars.contains vbl ∧ (rget params vbl).isNone then
            addEntryWarning a file entry "unknown-variable"
              ["$" ++ vbl, type]
          else a
        | none => a)
    a
  (mvalues params).foldl
    (fun a param =>
      if ¬param.required ∨ entry.vars.contains param.id then a
      else
        addEntryWarning a file entry "missing-required-variable"
          ["$" ++ param.id, type, entry.name])
    a

/-- `checkMessageParams` (lines 270-282): check the message itself, then
each of its attributes against the source attribute of the same id. -/
def checkMessageParams (a : Analyzer) (file : FileInfo)
    (message : MessageInfo) (srcMessage : Option MessageInfo)
    (isSrc : Bool) : Analyzer :=
  let a := checkParams a file (.msg message) (srcMessage.map EntryInfo.msg)
    isSrc false
  let srcAttributes := match srcMessage with
    | some s => s.attributes
    | none => []
  (mvalues message.attributes).foldl
    (fun a attr =>
      checkParams a file (.attr attr)
        ((rget srcAttributes attr.id).map EntryInfo.attr) isSrc true)
    a

/-- One step of `checkSourceGroup`'s message loop (lines 374-387): flag a
seen id, record it, run the source-side parameter checks. -/
def checkSrcMsgStep (file : FileInfo) (acc : Analyzer × List String)
    (message : MessageInfo) : Analyzer × List String :=
  let a := if acc.2.contains message.id then
      addEntryWarning acc.1 file (.msg message) "duplicate"
        ["message", message.name]
    else acc.1
  let seen := sadd acc.2 message.id
  (checkMessageParams a file message none true, seen)

/-- One step of `checkSourceGroup`'s term loop (lines 389-402). -/
def checkSrcTermStep (file : FileInfo) (acc : Analyzer × List String)
    (term : MessageInfo) : Analyzer × List String :=
  let a := if acc.2.contains term.id then
      addEntryWarning acc.1 file (.msg term) "duplicate"
        ["term", term.name]
    else acc.1
  (a, sadd acc.2 term.id)

/-- `checkSourceGroup` applied to one file. -/
def checkSourceFile (a : Analyzer) (file : FileInfo) : Analyzer :=
  let msgs := file.messages.foldl (checkSrcMsgStep file) (a, [])
  let trms := file.terms.foldl (checkSrcTermStep file) (msgs.1, [])
  trms.1

/-- `checkSourceGroup` (lines 371-404): per file, flag every message whose
id was already seen (`duplicate`), run the source-side parameter checks on
each message, and flag every term whose id was already seen. -/
def checkSourceGroup (a : Analyzer) (group : FileGroup) : Analyzer :=
  (mvalues group.files).foldl checkSourceFile a

/-! ## Differential comparison (`FtlAnalyzer.ts`, lines 448-681) -/

/-- `compareAttributes` (lines 448-533).  For a term, only the
do-not-translate check runs on each attribute.  For a message: unknown
attributes (unless ignored on the owning entry), do-not-translate (likewise),
then the pattern-equality check (`identical`/`mismatch-identical` with no
further guard); finally every `Required` source attribute absent from the
target flags `missing-attribute` on the owning message. -/
def compareAttributes (a : Analyzer) (file : FileInfo) (entry : MessageInfo)
    (srcAttributes : List (String × AttributeInfo)) : Analyzer :=
  let attributes := entry.attributes
  if entry.isTerm then
    (mvalues attributes).foldl
      (fun a attr =>
        match rget srcAttributes attr.id with
        | some srcAttr =>
          if srcAttr.translate = TranslateType.Disallowed then
            addEntryWarning a file (.attr attr) "do-not-translate"
              ["Attribute", attr.name]
          else a
        | none => a)
      a
  else
    let left := (mvalues attributes).foldl
      (fun (acc : Analyzer × List String) attr =>
        let attrSet := sadd acc.2 attr.id
        match rget srcAttributes attr.id with
        | none =>
          let a := if ¬shouldIgnore acc.1 "unknown-attribute" [entry.ignore]
            then
              addEntryWarning acc.1 file (.attr attr) "unknown-attribute"
                [attr.id]
            else acc.1
          (a, attrSet)
        | some srcAttr =>
          let a := if srcAttr.translate = TranslateType.Disallowed then
              if ¬shouldIgnore acc.1 "do-not-translate" [entry.ignore] then
                addEntryWarning acc.1 file (.attr attr) "do-not-translate"
                  ["Attribute", attr.name]
              else acc.1
            else acc.1
          let isEq := patternsEqual (some attr.value) (some srcAttr.value)
          let expectEq := attr.expectIdentical || srcAttr.expectIdentical
          let a := if isEq ≠ expectEq then
              addEntryWarning a file (.attr attr)
                (if isEq then "identical" else "mismatch-identical")
                ["Attribute", attr.name]
            else a
          (a, attrSet))
      (a, [])
    (mvalues srcAttributes).foldl
      (fun a srcAttr =>
        if srcAttr.translate ≠ TranslateType.Required then a
        else if ¬left.2.contains srcAttr.id then
          addEntryWarning a file (.msg entry) "missing-attribute"
            [entry.name ++ "." ++ srcAttr.id]
        else a)
      left.1

/-- `compareMessages` (lines 650-681): do-not-translate when the source
policy is `Disallowed`; then the pattern-equality check guarded by
`isEq !== expectEq && (!isEq || message.value)` (a JS truthiness test on the
target's pattern); then parameter checks and attribute comparison. -/
def compareMessages (a : Analyzer) (file : FileInfo)
    (message srcMessage : MessageInfo) : Analyzer :=
  let a := if srcMessage.translate = TranslateType.Disallowed then
      addEntryWarning a file (.msg message) "do-not-translate"
        ["Message", message.name]
    else a
  let isEq := patternsEqual message.value srcMessage.value
  let expectEq := message.expectIdentical || srcMessage.expectIdentical
  let a := if isEq ≠ expectEq ∧ (isEq = false ∨ message.value.isSome) then
      addEntryWarning a file (.msg message)
        (if isEq then "identical" else "mismatch-identical")
        ["Message", message.name]
    else a
  let a := checkMessageParams a file message (some srcMessage) false
  compareAttributes a file message srcMessage.attributes

/-- One step of `compareFiles`' term pass (lines 563-574): the duplicate
check reads the accumulator `rec`, which the step returns unchanged (the
source code never assigns into it), then the matched source term's
attributes are compared. -/
def compareTermStep (file : FileInfo)
    (srcTermById : List (String × MessageInfo))
    (acc : Analyzer × List (String × MessageInfo)) (term : MessageInfo) :
    Analyzer × List (String × MessageInfo) :=
  let a := if (rget acc.2 term.id).isSome then
      addEntryWarning acc.1 file (.msg term) "duplicate" ["term", term.name]
    else acc.1
  let a := match rget srcTermById term.id with
    | some srcTerm => compareAttributes a file term srcTerm.attributes
    | none => a
  (a, acc.2)

/-- One step of the `messageById` pass (lines 577-590): flag a repeated id
and store the message. -/
def compareMsgIndexStep (file : FileInfo)
    (acc : Analyzer × List (String × MessageInfo)) (msg : MessageInfo) :
    Analyzer × List (String × MessageInfo) :=
  let a := if (rget acc.2 msg.id).isSome then
      addEntryWarning acc.1 file (.msg msg) "duplicate"
        ["message", msg.name]
    else acc.1
  (a, rset acc.2 msg.id msg)

/-- One step of the source-message sweep (lines 592-603). -/
def compareSrcMsgStep (file : FileInfo)
    (messageById : List (String × MessageInfo)) (acc : Analyzer × List String)
    (srcMessage : MessageInfo) : Analyzer × List String :=
  let srcMessageSet := sadd acc.2 srcMessage.id
  match rget messageById srcMessage.id with
  | none => (addMissingMessageWarning acc.1 file srcMessage, srcMessageSet)
  | some message => (compareMessages acc.1 file message srcMessage,
      srcMessageSet)

/-- One step of the `unknown-message` sweep (lines 605-614). -/
def unknownMsgStep (file : FileInfo) (srcMessageSet : List String)
    (a : Analyzer) (message : MessageInfo) : Analyzer :=
  if ¬srcMessageSet.contains message.id then
    addEntryWarning a file (.msg message) "unknown-message" [message.id]
  else a

/-- The body of `compareFiles` (lines 538-615) once a target file is
present: a bundle mismatch warns and skips everything else; otherwise the
term pass (note the duplicate-detection accumulator `rec` is returned
unchanged, so it stays empty), the message pass building `messageById` (this
one does store each message), the source-message sweep
(`missing-message` / `compareMessages`), and the `unknown-message` sweep. -/
def compareFilesBody (a : Analyzer) (file srcFile : FileInfo)
    (locale : String) : Analyzer :=
  if file.bundle ≠ srcFile.bundle then
    addWarning a file "mismatch-file-bundle" { start := 0, stop := 0 }
      [getDisplayPath a file, getBundleDisplay file.bundle,
        getBundleDisplay srcFile.bundle]
  else
    let srcTermById := srcFile.terms.foldl
      (fun (rec : List (String × MessageInfo)) term => rset rec term.id term)
      []
    let termPass := file.terms.foldl (compareTermStep file srcTermById)
      (a, [])
    let msgPass := file.messages.foldl (compareMsgIndexStep file)
      (termPass.1, [])
    let srcPass := srcFile.messages.foldl
      (compareSrcMsgStep file msgPass.2) (msgPass.1, [])
    file.messages.foldl (unknownMsgStep file srcPass.2) srcPass.1

/-- `compareFiles` (lines 538-615): the target argument is optional because
the source guards `if (!file)` at run time (it then emits `missing-file`). -/
def compareFiles (a : Analyzer) (file : Option FileInfo) (srcFile : FileInfo)
    (locale : String) : Analyzer :=
  match file with
  | none => addMissingFileWarning a srcFile locale
  | some file => compareFilesBody a file srcFile locale

/-- Modelled from the claim under review: `compareFilesBody` with the
unreachable term-duplicate branch removed (the term pass merely looks
sources up); everything else is verbatim. -/
def compareFilesBodyNoTermDup (a : Analyzer) (file srcFile : FileInfo)
    (locale : String) : Analyzer :=
  if file.bundle ≠ srcFile.bundle then
    addWarning a file "mismatch-file-bundle" { start := 0, stop := 0 }
      [getDisplayPath a file, getBundleDisplay file.bundle,
        getBundleDisplay srcFile.bundle]
  else
    let srcTermById := srcFile.terms.foldl
      (fun (rec : List (String × MessageInfo)) term => rset rec term.id term)
      []
    let a := file.terms.foldl
      (fun a term =>
        match rget srcTermById term.id with
        | some srcTerm => compareAttributes a file term srcTerm.attributes
        | none => a)
      a
    let msgPass := file.messages.foldl (compareMsgIndexStep file) (a, [])
    let srcPass := srcFile.messages.foldl
      (compareSrcMsgStep file msgPass.2) (msgPass.1, [])
    file.messages.foldl (unknownMsgStep file srcPass.2) srcPass.1

/-- One step of `compareGroups`' source sweep (lines 627-638). -/
def compareGroupSrcStep (locale : String)
    (fileByName : List (String × FileInfo)) (acc : Analyzer × List String)
    (srcFile : FileInfo) : Analyzer × List String :=
  let srcFileSet := sadd acc.2 srcFile.name
  match rget fileByName srcFile.name with
  | none => (addMissingFileWarning acc.1 srcFile locale, srcFileSet)
  | some file => (compareFiles acc.1 (some file) srcFile locale, srcFileSet)

/-- `compareGroups` (lines 620-645): index the target group's files by
basename, sweep the source files (`missing-file` when absent, `compareFiles`
when present), then flag target files with no source counterpart
(`unknown-file`). -/
def compareGroups (a : Analyzer) (group srcGroup : FileGroup) : Analyzer :=
  let fileByName := (mvalues group.files).foldl
    (fun (rec : List (String × FileInfo)) file => rset rec file.name file)
    []
  let srcPass := (mvalues srcGroup.files).foldl
    (compareGroupSrcStep group.locale fileByName) (a, [])
  (mvalues group.files).foldl
    (fun a file =>
      if ¬srcPass.2.contains file.name then addUnknownFileWarning a file
      else a)
    srcPass.1

/-- `processCollection` (lines 112-130): readFile every group; if no group's
locale key matches the configured source locale, return (the code comments
"no source group → no warnings from comparison"); otherwise run the
intra-file source check on the source group and the differential comparison
on every other group.  The JS identity test `group === srcGroup` holds
exactly for the entry stored under the source-locale key. -/
def processCollection (a : Analyzer) (c : FileCollection) :
    Analyzer × FileCollection :=
  let readPass := c.groups.foldl
    (fun (acc : Analyzer × List (String × FileGroup)) p =>
      let r := readGroup acc.1 p.2
      (r.1, acc.2 ++ [(p.1, r.2)]))
    (a, [])
  let a := readPass.1
  let groups := readPass.2
  let c := { c with groups := groups }
  match rget groups a.sourceLocale with
  | none => (a, c)
  | some srcGroup =>
    let a := groups.foldl
      (fun a p =>
        if p.1 == a.sourceLocale then checkSourceGroup a p.2
        else compareGroups a p.2 srcGroup)
      a
    (a, c)

/-! ## Discovery (`discover.ts`)

The file system is a tree snapshot: directory listings are ordered
`(name, node)` lists (the order `fs.readdir` reports).  Paths are segment
lists relative to the base directory (the base itself is `[]`), so node's
`path.join`/`dirname` become list append/`dropLast`, and
`isPathInside(p, base)` is `p ≠ []` for the in-tree paths the walk builds.
`pathToFileURL` is injective on the distinct clean absolute paths the walk
produces, so a file's URI is modelled by its path. -/

namespace Discover

/-- A file-system node: a file, or a directory with its ordered listing. -/
inductive FsNode where
  | file
  | dir (entries : List (String × FsNode))

/-- Whether a node is a directory (`Dirent.isDirectory`). -/
def FsNode.isDir : FsNode → Bool
  | .file => false
  | .dir _ => true

/-- Resolve a path under a node (`fs.readdir` on the joined path). -/
def lookupNode (node : FsNode) (p : List String) : Option FsNode :=
  match p with
  | [] => some node
  | seg :: rest =>
    match node with
    | .file => none
    | .dir entries =>
      match entries.find? (fun e => e.1 == seg) with
      | some e => lookupNode e.2 rest
      | none => none

mutual

/-- Size of a tree (a bound on the recursion depth of the walk). -/
def fsSize : FsNode → Nat
  | .file => 1
  | .dir entries => 1 + entriesSize entries

/-- Total size of a listing (see `fsSize`). -/
def entriesSize : List (String × FsNode) → Nat
  | [] => 0
  | e :: rest => fsSize e.2 + entriesSize rest

end

/-- The resource-extension test of both `getCollection` and
`discoverInternal`: `entry.name.toUpperCase().endsWith('.FTL')`. -/
def ftlName (name : String) : Bool :=
  name.toUpper.endsWith ".FTL"

/-- The file record `createFileRecord` builds, restricted to the identity
data discovery uses: the path (standing for the URI) and the display name
`path.basename(relative, '.ftl')` (node strips the suffix only when it is a
proper suffix, so an upper-cased extension stays). -/
structure DFileInfo where
  path : List String
  name : String
  deriving DecidableEq, Repr

/-- `createFileRecord` (see `DFileInfo`). -/
def createFileRecord (p : List String) : DFileInfo :=
  let base := p.getLastD ""
  { path := p,
    name := if base.endsWith ".ftl" ∧ base ≠ ".ftl" then
        base.dropRight 4
      else base }

/-- A locale group inside a collection (`FileGroup`): the locale name and
the URI-keyed file map. -/
structure DGroup where
  locale : String
  files : List (List String × DFileInfo)
  deriving DecidableEq, Repr

/-- A discovered collection (`FileCollection`). -/
structure DCollection where
  path : List String
  groups : List (String × DGroup)
  deriving DecidableEq, Repr

/-- The `DiscoveryResult` accumulator (`ctx` of `discoverInternal`): the
collections, the ungrouped group's file map (its locale is the empty
string), and the claimed-URI set. -/
structure Ctx where
  collections : List DCollection
  ungrouped : List (List String × DFileInfo)
  uris : List (List String)
  deriving DecidableEq, Repr

/-- JS `Set.add` on the URI set. -/
def uadd (s : List (List String)) (u : List String) : List (List String) :=
  if s.contains u then s else s ++ [u]

/-- JS `Map.set` on a URI-keyed file map. -/
def msetU (m : List (List String × DFileInfo)) (k : List String)
    (v : DFileInfo) : List (List String × DFileInfo) :=
  if (m.find? (fun p => p.1 == k)).isSome then
    m.map (fun p => if p.1 == k then (k, v) else p)
  else m ++ [(k, v)]

/-- The inner loop of `getCollection`: every entry of a locale directory
must be a file with the resource extension; collect the file names. -/
def localeFtlFiles : List (String × FsNode) → Option (List String)
  | [] => some []
  | (n, .file) :: rest =>
      if ftlName n then (localeFtlFiles rest).map (fun fs => n :: fs)
      else none
  | (_, .dir _) :: _ => none

/-- The second loop of `getCollection`: walk the locale directories in
order; any invalid locale directory aborts the whole candidate; a group is
created only when its first file appears (an empty locale directory yields
no group). -/
def buildGroups (curPath : List String) :
    List (String × FsNode) → Option (List (String × DGroup))
  | [] => some []
  | (locale, node) :: rest =>
    match node with
    | .file => none
    | .dir les =>
      match localeFtlFiles les with
      | none => none
      | some fs =>
        (buildGroups curPath rest).map
          (fun gs =>
            if fs = [] then gs
            else
              (locale,
                { locale := locale,
                  files := fs.map (fun f =>
                    (curPath ++ [locale, f],
                      createFileRecord (curPath ++ [locale, f]))) }) :: gs)

/-- `getCollection` (`discover.ts` lines 29-77): the candidate directory
must exist, all of its children must be directories, and every child must
contain only resource files; otherwise no collection. -/
def getCollection (root : FsNode) (curPath : List String) :
    Option DCollection :=
  match lookupNode root curPath with
  | some (.dir entries) =>
    if entries.all (fun e => e.2.isDir) then
      (buildGroups curPath entries).map
        (fun gs => { path := curPath, groups := gs })
    else none
  | _ => none

/-- All file URIs of a collection, in group/file order (the double loop at
`discover.ts` lines 135-141). -/
def collectionUris (c : DCollection) : List (List String) :=
  (c.groups.map (fun g => g.2.files.map (fun p => p.1))).flatten

/-- The file-handling part of `discoverInternal`'s entry loop (lines
99-143): skip non-resource entries; skip a claimed URI; try to form a
collection around the file's grandparent when that lies strictly inside the
base; otherwise the file joins the ungrouped map. -/
def discoverFilesStep (root : FsNode) (curPath : List String)
    (cur : List (String × FsNode)) (ctx : Ctx) : Ctx :=
  cur.foldl
    (fun ctx e =>
      match e.2 with
      | .dir _ => ctx
      | .file =>
        if ¬ftlName e.1 then ctx
        else
          let filePath := curPath ++ [e.1]
          let uri := filePath
          if ctx.uris.contains uri then ctx
          else
            let grandparent := curPath.dropLast
            let collection := if grandparent ≠ [] then
                getCollection root grandparent
              else none
            match collection with
            | none =>
              let uris := uadd ctx.uris uri
              let ungrouped := msetU ctx.ungrouped uri
                (createFileRecord filePath)
              { ctx with uris := uris, ungrouped := ungrouped }
            | some c =>
              let uris := (collectionUris c).foldl uadd ctx.uris
              let collections := ctx.collections ++ [c]
              { ctx with uris := uris, collections := collections })
    ctx

/-- `discoverInternal` (lines 82-154): process the current listing's files,
then recurse into each subdirectory whose name does not start with `.`, in
listing order.  Fuel bounds the recursion depth; `discover` below passes the
tree size, which the depth never exceeds. -/
def discoverGo (fuel : Nat) (root : FsNode) (curPath : List String)
    (cur : List (String × FsNode)) (ctx : Ctx) : Ctx :=
  match fuel with
  | 0 => ctx
  | fuel + 1 =>
    let ctx := discoverFilesStep root curPath cur ctx
    cur.foldl
      (fun ctx e =>
        match e.2 with
        | .dir es =>
          if e.1.startsWith "." then ctx
          else discoverGo fuel root (curPath ++ [e.1]) es ctx
        | .file => ctx)
      ctx

/-- The subdirectory loop of `discoverInternal` (lines 145-152), as a
function of the remaining listing: recurse into each non-hidden
subdirectory in order. -/
def discoverDirs (fuel : Nat) (root : FsNode) (curPath : List String)
    (rest : List (String × FsNode)) (ctx : Ctx) : Ctx :=
  rest.foldl
    (fun ctx e =>
      match e.2 with
      | .dir es =>
        if e.1.startsWith "." then ctx
        else discoverGo fuel root (curPath ++ [e.1]) es ctx
      | .file => ctx)
    ctx

/-- `discover(basePath)`: run the walk from the base directory's listing
with an empty context. -/
def discover (baseEntries : List (String × FsNode)) : Ctx :=
  discoverGo (entriesSize baseEntries + 1) (.dir baseEntries) [] baseEntries
    { collections := [], ungrouped := [], uris := [] }

/-- The walk-reachable resource files, with the same recursion structure
(and fuel) as the walk itself: the resource files of the current listing
plus those of every non-hidden subdirectory, in walk order. -/
def reachFiles (fuel : Nat) (curPath : List String)
    (cur : List (String × FsNode)) : List (List String) :=
  match fuel with
  | 0 => []
  | fuel + 1 =>
    (cur.filterMap
      (fun e =>
        match e.2 with
        | .file => if ftlName e.1 then some (curPath ++ [e.1]) else none
        | .dir _ => none))
    ++ (cur.map
      (fun e =>
        match e.2 with
        | .dir es =>
          if e.1.startsWith "." then []
          else reachFiles fuel (curPath ++ [e.1]) es
        | .file => [])).flatten

/-- The flattened URI list of a group list. -/
def groupsUris (gs : List (String × DGroup)) : List (List String) :=
  (gs.map (fun g => g.2.files.map (fun p => p.1))).flatten

/-- Every URI of the result, flattened: collection files first (in
collection/group/file order), then the ungrouped files. -/
def allUris (ctx : Ctx) : List (List String) :=
  (ctx.collections.map collectionUris).flatten
    ++ ctx.ungrouped.map (fun p => p.1)

/-- The walk invariant: the claimed-URI set is exactly the set of URIs
appearing in the partition, no URI appears in the partition twice, every
recorded collection is the collection its path forms (a non-base path), all
of its URIs claimed, and every ungrouped file's grandparent forms no
collection (or is the base). -/
def Inv (root : FsNode) (ctx : Ctx) : Prop :=
  (∀ u, u ∈ ctx.uris ↔ u ∈ allUris ctx)
  ∧ (allUris ctx).Nodup
  ∧ (∀ c ∈ ctx.collections, c.path ≠ []
      ∧ getCollection root c.path = some c
      ∧ ∀ u ∈ collectionUris c, u ∈ ctx.uris)
  ∧ (∀ p ∈ ctx.ungrouped,
      p.1.dropLast.dropLast = []
      ∨ getCollection root (p.1.dropLast.dropLast) = none)

/-- Well-formed snapshot: sibling names are distinct at every level (true
of any real directory tree). -/
inductive WfFs : FsNode → Prop where
  | file : WfFs .file
  | dir (entries : List (String × FsNode))
      (hn : (entries.map (fun e => e.1)).Nodup)
      (he : ∀ e ∈ entries, WfFs e.2) : WfFs (.dir entries)

end Discover

/-! ## Claim fixtures -/

/-- A pattern with a variable in a select expression's selector (`$x`) and
another (`$y`) inside one of its variants:
`{ $x -> *[other] {$y} }`. -/
def selectVariantPattern : ASTPattern :=
  { elements := [ASTNode.placeable (ASTNode.selectExpression
      (ASTNode.variableReference "x")
      [ASTNode.variant "other"
        [ASTNode.placeable (ASTNode.variableReference "y")] true])] }

/-- An analyzer whose engine-wide ignore list holds the exact code
`duplicate`. -/
def ignoreDupAnalyzer : Analyzer :=
  { sourceLocale := "en", ignore := ["duplicate"], diagnostics := [],
    useRelativePaths := false }

/-- A small file record. -/
def fileA : FileInfo :=
  let p : PathInfo :=
    { uri := "file:///base/en/a.ftl", absolute := "/base/en/a.ftl",
      relative := "en/a.ftl" }
  { name := "a", path := p, content := "msg = Hi" }

/-- An attribute record (the engine attaches warnings to attributes through
`addEntryWarning` as well). -/
def attrX : AttributeInfo :=
  { id := "x", name := "msg.x", value := { elements := [] },
    idSpan := { start := 0, stop := 1 }, translate := TranslateType.Required }

/-- An analyzer configured to ignore `missing-message` (exact code). -/
def ignoreExactAnalyzer : Analyzer :=
  { sourceLocale := "en", ignore := ["missing-message"], diagnostics := [],
    useRelativePaths := false }

/-- An analyzer configured to ignore the `missing` category. -/
def ignoreCatAnalyzer : Analyzer :=
  { sourceLocale := "en", ignore := ["missing"], diagnostics := [],
    useRelativePaths := false }

/-- An analyzer configured with the unrelated entry `message`. -/
def ignoreOtherAnalyzer : Analyzer :=
  { sourceLocale := "en", ignore := ["message"], diagnostics := [],
    useRelativePaths := false }

/-- An analyzer with no engine-wide ignores and no recorded diagnostics. -/
def emptyAnalyzer : Analyzer :=
  { sourceLocale := "en", ignore := [], diagnostics := [],
    useRelativePaths := false }

/-- A message `msg = Hi` with no annotations. -/
def msgHi : MessageInfo :=
  { isTerm := false, id := "msg", name := "msg",
    value := some { elements := [ASTNode.textElement "Hi"] },
    idSpan := { start := 0, stop := 3 }, translate := TranslateType.Required }

/-- A value-less message (one that only carries attributes in Fluent). -/
def msgNoValue : MessageInfo :=
  { isTerm := false, id := "msg", name := "msg", value := none,
    idSpan := { start := 0, stop := 3 }, translate := TranslateType.Required }

/-- A source message `msg = Hello` flagged `@expect-identical`. -/
def srcHelloExpect : MessageInfo :=
  { isTerm := false, id := "msg", name := "msg",
    value := some { elements := [ASTNode.textElement "Hello"] },
    idSpan := { start := 0, stop := 3 }, translate := TranslateType.Required,
    expectIdentical := true }

/-- The occurrences (messages or terms) whose identifier already occurred
earlier in the list (or in the given starting set): the entries the
duplicate check should flag — every occurrence after the first, never the
first. -/
def laterDuplicates (seen : List String) :
    List MessageInfo → List MessageInfo
  | [] => []
  | m :: rest =>
    if seen.contains m.id then m :: laterDuplicates (sadd seen m.id) rest
    else laterDuplicates (sadd seen m.id) rest

/-- A second occurrence of `msg = Hi` later in the same file (the identifier
span points at the second occurrence). -/
def msgHiSecond : MessageInfo :=
  { isTerm := false, id := "msg", name := "msg",
    value := some { elements := [ASTNode.textElement "Hi"] },
    idSpan := { start := 9, stop := 12 },
    translate := TranslateType.Required }

/-- A file holding `msg = Hi` twice. -/
def dupFile : FileInfo :=
  let p : PathInfo :=
    { uri := "file:///base/en/a.ftl", absolute := "/base/en/a.ftl",
      relative := "en/a.ftl" }
  { name := "a", path := p, content := "msg = Hi\nmsg = Hi",
    messages := [msgHi, msgHiSecond] }

/-- A stale diagnostic left over from a previous parse. -/
def staleDiag : DiagnosticInfo :=
  { severity := DiagnosticSeverity.Warning, message := "old", code := "old",
    uri := "file:///base/en/a.ftl",
    range := spanToRange { start := 0, stop := 0 } "" }

/-- An analyzer still holding a diagnostic from a previous parse of
`file:///base/en/a.ftl`. -/
def dirtyAnalyzer : Analyzer :=
  { sourceLocale := "en", ignore := [],
    diagnostics := [("file:///base/en/a.ftl", [staleDiag])],
    useRelativePaths := false }

/-- The parser output for the source text `msg = Hi`. -/
def astMsgHi : AstEntryData :=
  { id := "msg", idSpan := { start := 0, stop := 3 },
    value := some { elements := [ASTNode.textElement "Hi"] },
    attributes := [], comment := none }

/-- Parse data holding the single message `msg = Hi`. -/
def pdHi : ParseData :=
  { content := "msg = Hi", body := [FtlEntry.message astMsgHi] }

/-- A file whose on-disk content parses to a single message. -/
def parsedFile : FileInfo :=
  let p : PathInfo :=
    { uri := "file:///base/en/a.ftl", absolute := "/base/en/a.ftl",
      relative := "en/a.ftl" }
  { name := "a", path := p, parsed := some pdHi }

/-- A file whose content re-read fails (`parsed = none`). -/
def unreadableFile : FileInfo :=
  let p : PathInfo :=
    { uri := "file:///base/en/a.ftl", absolute := "/base/en/a.ftl",
      relative := "en/a.ftl" }
  { name := "a", path := p }

/-- A `fr` group holding the duplicate-message file. -/
def frDupGroup : FileGroup :=
  { locale := "fr", files := [("file:///base/en/a.ftl", dupFile)] }

/-- A collection whose only group is the `fr` group: no group matches the
source locale `en`, yet a file of the collection duplicates a message id. -/
def frDupCollection : FileCollection :=
  let p : PathInfo :=
    { uri := "file:///base", absolute := "/base", relative := "" }
  { path := p, groups := [("fr", frDupGroup)] }

/-- The read pass of `processCollection`: `readGroup` over every group in
map order, re-recording each group under its key. -/
def readPassOnly (a : Analyzer) (c : FileCollection) :
    Analyzer × List (String × FileGroup) :=
  c.groups.foldl
    (fun (acc : Analyzer × List (String × FileGroup)) p =>
      let r := readGroup acc.1 p.2
      (r.1, acc.2 ++ [(p.1, r.2)]))
    (a, [])

/-- A small well-formed snapshot: a collection candidate two levels down
(`mods/thing/{en,fr}/a.ftl`), a loose resource file at the base, and a
hidden directory the walk skips. -/
def demoFs : List (String × Discover.FsNode) :=
  [("mods", .dir [("thing", .dir [("en", .dir [("a.ftl", .file)]),
      ("fr", .dir [("a.ftl", .file)])])]),
   ("loose.ftl", .file),
   (".hidden", .dir [("x.ftl", .file)])]

/-! ## Helper lemmas -/

/-- String `==` is symmetric. -/
theorem strBeqComm (a b : String) : (a == b) = (b == a) := by
  by_cases h : a = b
  · simp [h]
  · simp [beq_eq_false_iff_ne, h, Ne.symm h]

/-- Bool `==` is symmetric. -/
theorem boolBeqComm (a b : Bool) : (a == b) = (b == a) := by
  cases a <;> cases b <;> rfl

/-- Structural node equality holds on equal nodes. -/
theorem nodeEq_of_eq : ∀ a b : ASTNode, a = b → nodeEq a b = true := by
  apply nodeEq.induct
    (fun a b => a = b → nodeEq a b = true)
    (fun a b => a = b → namedListEq a b = true)
    (fun a b => a = b → nodeListEq a b = true)
  case case11 =>
    intro t x h1 h2 h3 h4 h5 h6 h7 h8 h9 h10 heq
    subst heq
    cases t <;> first
      | exact ((h1 _ _ rfl rfl).elim)
      | exact ((h2 _ _ rfl rfl).elim)
      | exact ((h3 _ _ rfl rfl).elim)
      | exact ((h4 _ _ rfl rfl).elim)
      | exact ((h5 _ _ rfl rfl).elim)
      | exact ((h6 _ _ rfl rfl).elim)
      | exact ((h7 _ _ rfl rfl).elim)
      | exact ((h8 _ _ _ _ _ _ rfl rfl).elim)
      | exact ((h9 _ _ _ _ rfl rfl).elim)
      | exact ((h10 _ _ _ _ _ _ rfl rfl).elim)
  case case14 =>
    intro t x h1 h2 heq
    subst heq
    cases t <;> first
      | exact ((h1 rfl rfl).elim)
      | exact ((h2 _ _ _ _ rfl rfl).elim)
  case case17 =>
    intro t x h1 h2 heq
    subst heq
    cases t with
    | nil => exact ((h1 rfl rfl).elim)
    | cons p ps => exact ((h2 p.1 p.2 ps p.1 p.2 ps rfl rfl).elim)
  all_goals intros
  all_goals simp_all [nodeEq, nodeListEq, namedListEq]

/-- Structural node equality is symmetric. -/
theorem nodeEq_symm : ∀ a b : ASTNode, nodeEq a b = nodeEq b a := by
  apply nodeEq.induct
    (fun a b => nodeEq a b = nodeEq b a)
    (fun a b => namedListEq a b = namedListEq b a)
    (fun a b => nodeListEq a b = nodeListEq b a)
  case case11 =>
    intro t x h1 h2 h3 h4 h5 h6 h7 h8 h9 h10
    cases t <;> cases x <;> first
      | rfl
      | exact ((h1 _ _ rfl rfl).elim)
      | exact ((h2 _ _ rfl rfl).elim)
      | exact ((h3 _ _ rfl rfl).elim)
      | exact ((h4 _ _ rfl rfl).elim)
      | exact ((h5 _ _ rfl rfl).elim)
      | exact ((h6 _ _ rfl rfl).elim)
      | exact ((h7 _ _ rfl rfl).elim)
      | exact ((h8 _ _ _ _ _ _ rfl rfl).elim)
      | exact ((h9 _ _ _ _ rfl rfl).elim)
      | exact ((h10 _ _ _ _ _ _ rfl rfl).elim)
  case case14 =>
    intro t x h1 h2
    cases t <;> cases x <;> first
      | rfl
      | exact ((h1 rfl rfl).elim)
      | exact ((h2 _ _ _ _ rfl rfl).elim)
  case case17 =>
    intro t x h1 h2
    cases t with
    | nil =>
      cases x with
      | nil => exact ((h1 rfl rfl).elim)
      | cons q qs => rfl
    | cons p ps =>
      cases x with
      | nil => rfl
      | cons q qs => exact ((h2 p.1 p.2 ps q.1 q.2 qs rfl rfl).elim)
  all_goals intros
  all_goals simp_all [nodeEq, nodeListEq, namedListEq, strBeqComm, boolBeqComm]

/-- Structural equality of node lists is reflexive. -/
theorem nodeListEq_refl : ∀ l : List ASTNode, nodeListEq l l = true := by
  intro l
  induction l with
  | nil => rfl
  | cons a as ih => simp [nodeListEq, ih, nodeEq_of_eq a a rfl]

/-- Structural equality of node lists is symmetric. -/
theorem nodeListEq_symm : ∀ l m : List ASTNode,
    nodeListEq l m = nodeListEq m l := by
  intro l
  induction l with
  | nil => intro m; cases m <;> rfl
  | cons a as ih =>
    intro m
    cases m with
    | nil => rfl
    | cons b bs => simp [nodeListEq, nodeEq_symm a b, ih bs]

/-- The term pass of `compareFiles` never stores anything in its
duplicate-detection accumulator: starting from an empty record it ends with
an empty record, and the duplicate branch never fires, so the pass reduces
to the source-term attribute comparisons alone. -/
theorem termPassEq (file : FileInfo) (stb : List (String × MessageInfo)) :
    ∀ (terms : List MessageInfo) (a : Analyzer),
      terms.foldl (compareTermStep file stb)
          (a, ([] : List (String × MessageInfo)))
        = (terms.foldl
            (fun a term =>
              match rget stb term.id with
              | some srcTerm => compareAttributes a file term srcTerm.attributes
              | none => a)
            a, []) := by
  intro terms
  induction terms with
  | nil => intro a; rfl
  | cons t ts ih =>
    intro a
    have h1 : compareTermStep file stb (a, ([] : List (String × MessageInfo))) t
        = ((match rget stb t.id with
            | some srcTerm => compareAttributes a file t srcTerm.attributes
            | none => a), []) := rfl
    simp only [List.foldl_cons, h1, ih]

/-- C10: in the differential comparison of a target file against its
source-locale counterpart, the term-duplicate accumulator is never written,
so the `duplicate` branch for terms is unreachable: `compareFiles` on a
present target file coincides with the variant of its body from which the
term-duplicate emission has been deleted. -/
theorem C10_compareFiles_term_duplicate_unreachable :
    ∀ (a : Analyzer) (file srcFile : FileInfo) (locale : String),
      compareFiles a (some file) srcFile locale
        = compareFilesBodyNoTermDup a file srcFile locale := by
  intro a file srcFile locale
  show compareFilesBody a file srcFile locale = _
  unfold compareFilesBody compareFilesBodyNoTermDup
  by_cases hb : file.bundle ≠ srcFile.bundle
  · rw [if_pos hb, if_pos hb]
  · rw [if_neg hb, if_neg hb]
    simp only [termPassEq]

/-- C8: the pattern structural-equality predicate is reflexive and
symmetric; two absent patterns are equal; an absent pattern never equals a
present one. -/
theorem C8_patternsEqual_refl_symm :
    (∀ p : ASTPattern, patternsEqual (some p) (some p) = true)
    ∧ (∀ p q : Option ASTPattern, patternsEqual p q = patternsEqual q p)
    ∧ patternsEqual none none = true
    ∧ (∀ p : ASTPattern, patternsEqual none (some p) = false) := by
  refine ⟨?_, ?_, rfl, fun p => rfl⟩
  · intro p
    simp [patternsEqual, patEq, nodeListEq_refl]
  · intro p q
    cases p <;> cases q <;> simp [patternsEqual, patEq, nodeListEq_symm]

/-- C4 (code bug): the variable-collection walk pushes a select
expression's variants onto the work-stack, but the switch has no `Variant`
case, so variables occurring only inside variant patterns are silently
dropped.  On `{ $x -> *[other] {$y} }` the walk returns `{x}` and misses
`y`. -/
theorem C4_collectVariables_drops_variant_variables :
    collectVariables (some selectVariantPattern) = ["x"]
    ∧ ¬("y" ∈ collectVariables (some selectVariantPattern)) := by
  constructor
  · rfl
  · decide

/-- Appending a diagnostic: the list for the pushed URI grows by exactly
that diagnostic. -/
theorem rget_pushDiag (u : String) (d : DiagnosticInfo) :
    ∀ m : List (String × List DiagnosticInfo),
      rget (pushDiag m u d) u = some ((rget m u).getD [] ++ [d]) := by
  intro m
  induction m with
  | nil => simp [pushDiag, rget]
  | cons p rest ih =>
    by_cases hp : (p.1 == u) = true
    · have hfind : ((p :: rest).find? (fun q => q.1 == u)) = some p :=
        List.find?_cons_of_pos rest hp
      simp only [pushDiag, hfind, Option.isSome_some, if_true, List.map_cons,
        hp, rget, List.find?_cons_of_pos, Option.map_some, Option.getD_some]
      simp
    · have hp' : (p.1 == u) = false := by simpa using hp
      have hfind : ((p :: rest).find? (fun q => q.1 == u))
          = rest.find? (fun q => q.1 == u) := List.find?_cons_of_neg rest hp
      have hskip : ∀ tail : List (String × List DiagnosticInfo),
          rget (p :: tail) u = rget tail u := by
        intro tail
        simp [rget, List.find?_cons_of_neg, hp']
      by_cases hr : (rest.find? (fun q => q.1 == u)).isSome
      · have step : pushDiag (p :: rest) u d = p :: pushDiag rest u d := by
          simp only [pushDiag, hfind, hr, if_true, List.map_cons, hp',
            Bool.false_eq_true, if_false]
        rw [step, hskip, hskip, ih]
      · have hr' : (rest.find? (fun q => q.1 == u)) = none := by
          cases ho : rest.find? (fun q => q.1 == u) with
          | none => rfl
          | some q => simp [ho] at hr
        have step : pushDiag (p :: rest) u d = p :: pushDiag rest u d := by
          simp [pushDiag, hfind, hr', hp']
        rw [step, hskip, hskip, ih]

/-- Appending a diagnostic leaves every other URI's list unchanged. -/
theorem rget_pushDiag_ne (u k : String) (d : DiagnosticInfo) (hne : k ≠ u) :
    ∀ m : List (String × List DiagnosticInfo),
      rget (pushDiag m u d) k = rget m k := by
  intro m
  induction m with
  | nil => simp [pushDiag, rget, Ne.symm hne]
  | cons p rest ih =>
    by_cases hp : (p.1 == u) = true
    · have hpu : p.1 = u := by simpa using hp
      have hpk : (p.1 == k) = false := by simp [hpu, Ne.symm hne]
      have hfind : ((p :: rest).find? (fun q => q.1 == u)) = some p :=
        List.find?_cons_of_pos rest hp
      have hrs : ((p :: rest).find? (fun q => q.1 == u)).isSome := by
        simp [hfind]
      simp only [pushDiag, hrs, if_true, List.map_cons, hp, if_true]
      have h1 : rget ((p.1, p.2 ++ [d])
          :: rest.map (fun q => if (q.1 == u) = true then (q.1, q.2 ++ [d])
            else q)) k
          = rget (rest.map (fun q => if (q.1 == u) = true then (q.1, q.2 ++ [d])
            else q)) k := by
        simp [rget, List.find?_cons_of_neg, hpk]
      have h2 : rget (p :: rest) k = rget rest k := by
        simp [rget, List.find?_cons_of_neg, hpk]
      rw [h1, h2]
      by_cases hr : (rest.find? (fun q => q.1 == u)).isSome
      · have := ih
        simp only [pushDiag, hr, if_true] at this
        exact this
      · -- the key u occurs only at the head, so the tail map is untouched
        have hmap : rest.map (fun q => if (q.1 == u) = true then
            (q.1, q.2 ++ [d]) else q) = rest := by
          have hr' : (rest.find? (fun q => q.1 == u)) = none := by
            cases ho : rest.find? (fun q => q.1 == u) with
            | none => rfl
            | some q => simp [ho] at hr
          have hall := List.find?_eq_none.mp hr'
          have hmapid : rest.map (fun q => if (q.1 == u) = true then
              (q.1, q.2 ++ [d]) else q) = rest.map id :=
            List.map_congr_left (fun q hq => by simp [hall q hq])
          simpa using hmapid
        rw [hmap]
    · have hp' : (p.1 == u) = false := by simpa using hp
      have hfind : ((p :: rest).find? (fun q => q.1 == u))
          = rest.find? (fun q => q.1 == u) := List.find?_cons_of_neg rest hp
      by_cases hr : (rest.find? (fun q => q.1 == u)).isSome
      · have step : pushDiag (p :: rest) u d = p :: pushDiag rest u d := by
          simp only [pushDiag, hfind, hr, if_true, List.map_cons, hp',
            Bool.false_eq_true, if_false]
        rw [step]
        by_cases hpk : (p.1 == k) = true
        · simp [rget, List.find?_cons_of_pos, hpk]
        · have hpk' : (p.1 == k) = false := by simpa using hpk
          have h1 : ∀ tail, rget (p :: tail) k = rget tail k := by
            intro tail
            simp [rget, List.find?_cons_of_neg, hpk']
          rw [h1, h1, ih]
      · have hr' : (rest.find? (fun q => q.1 == u)) = none := by
          cases ho : rest.find? (fun q => q.1 == u) with
          | none => rfl
          | some q => simp [ho] at hr
        have step : pushDiag (p :: rest) u d = p :: pushDiag rest u d := by
          simp [pushDiag, hfind, hr', hp']
        rw [step]
        by_cases hpk : (p.1 == k) = true
        · simp [rget, List.find?_cons_of_pos, hpk]
        · have hpk' : (p.1 == k) = false := by simpa using hpk
          have h1 : ∀ tail, rget (p :: tail) k = rget tail k := by
            intro tail
            simp [rget, List.find?_cons_of_neg, hpk']
          rw [h1, h1, ih]

/-- `addDiagnostic` appends exactly its diagnostic to the file's list. -/
theorem getDiagnosticsForUri_addDiagnostic (a : Analyzer)
    (sev : DiagnosticSeverity) (file : FileInfo) (r : IReportable) :
    (addDiagnostic a sev file r).getDiagnosticsForUri file.path.uri
      = a.getDiagnosticsForUri file.path.uri ++ [mkDiagnostic sev file r] := by
  simp [addDiagnostic, Analyzer.getDiagnosticsForUri,
    rget_pushDiag file.path.uri (mkDiagnostic sev file r) a.diagnostics]

/-- `addDiagnostic` leaves every other URI's diagnostics unchanged. -/
theorem getDiagnosticsForUri_addDiagnostic_ne (a : Analyzer)
    (sev : DiagnosticSeverity) (file : FileInfo) (r : IReportable)
    (k : String) (hne : k ≠ file.path.uri) :
    (addDiagnostic a sev file r).getDiagnosticsForUri k
      = a.getDiagnosticsForUri k := by
  simp [addDiagnostic, Analyzer.getDiagnosticsForUri,
    rget_pushDiag_ne file.path.uri k (mkDiagnostic sev file r) hne
      a.diagnostics]

/-- `shouldIgnore` with a single extra set, unfolded to its four membership
tests. -/
theorem shouldIgnore_eq (a : Analyzer) (code : String) (s : List String) :
    shouldIgnore a code [s]
      = (s.contains code || s.contains (getWarningCategory code)
        || a.ignore.contains code
        || a.ignore.contains (getWarningCategory code)) := by
  simp [shouldIgnore, Bool.or_assoc]

/-- C3 counterexample: a diagnostic attached to an *attribute* is emitted
even though the engine-wide configured ignore list contains the exact code
(`duplicate`), contradicting the claim that such a diagnostic is always
suppressed. -/
theorem C3_counterexample_attribute_not_suppressed :
    ((addEntryWarning ignoreDupAnalyzer fileA (EntryInfo.attr attrX)
        "duplicate" ["attribute", "msg.x"]).getDiagnosticsForUri
      fileA.path.uri).length = 1 := by
  rfl

/-- C3 (amended): for a warning attached through `addEntryWarning` to a
message or term, the diagnostic is suppressed exactly when the entry's
`ignoreAll` flag is set or the entry's own ignore set or the engine-wide
configured ignore list contains the exact code or its category — the file's
ignore set plays no role; for a warning attached to an attribute no
suppression is applied at all; and the category of `missing-message` is
`missing`, so it is suppressed by an ignore list containing
`missing-message` or `missing` but not by one containing only `message`. -/
theorem C3_addEntryWarning_suppression :
    (∀ (a : Analyzer) (file : FileInfo) (m : MessageInfo) (code : String)
      (args : List String),
      (addEntryWarning a file (EntryInfo.msg m) code args).getDiagnosticsForUri
          file.path.uri
        = a.getDiagnosticsForUri file.path.uri
          ++ (if m.ignoreAll = true ∨ code ∈ m.ignore
                ∨ getWarningCategory code ∈ m.ignore
                ∨ code ∈ a.ignore
                ∨ getWarningCategory code ∈ a.ignore
              then []
              else [mkDiagnostic DiagnosticSeverity.Warning file
                (createWarning code m.idSpan args)]))
    ∧ (∀ (a : Analyzer) (file : FileInfo) (at_ : AttributeInfo)
        (code : String) (args : List String),
        (addEntryWarning a file (EntryInfo.attr at_) code
            args).getDiagnosticsForUri file.path.uri
          = a.getDiagnosticsForUri file.path.uri
            ++ [mkDiagnostic DiagnosticSeverity.Warning file
              (createWarning code at_.idSpan args)])
    ∧ getWarningCategory "missing-message" = "missing"
    ∧ shouldIgnore ignoreExactAnalyzer "missing-message" [] = true
    ∧ shouldIgnore ignoreCatAnalyzer "missing-message" [] = true
    ∧ shouldIgnore ignoreOtherAnalyzer "missing-message" [] = false := by
  refine ⟨?_, ?_, rfl, rfl, rfl, rfl⟩
  · intro a file m code args
    have hmem : shouldIgnore a code [m.ignore] = true
        ↔ (code ∈ m.ignore ∨ getWarningCategory code ∈ m.ignore
          ∨ code ∈ a.ignore ∨ getWarningCategory code ∈ a.ignore) := by
      simp [shouldIgnore_eq, or_assoc]
    simp only [addEntryWarning]
    by_cases hall : m.ignoreAll = true
    · rw [if_pos hall, if_pos (Or.inl hall)]
      simp
    · rw [if_neg hall]
      by_cases hsi : shouldIgnore a code [m.ignore] = true
      · rw [if_pos hsi, if_pos (Or.inr (hmem.mp hsi))]
        simp
      · rw [if_neg hsi, getDiagnosticsForUri_addDiagnostic]
        rw [if_neg ?hc]
        case hc =>
          intro hcond
          rcases hcond with h | h
          · exact hall h
          · exact hsi (hmem.mpr h)
  · intro a file at_ code args
    simp only [addEntryWarning]
    exact getDiagnosticsForUri_addDiagnostic a DiagnosticSeverity.Warning file
      (createWarning code at_.idSpan args)

/-- With empty ignore configuration an entry warning on a message or term
is an unconditional `addDiagnostic`. -/
theorem addEntryWarning_noignore (a : Analyzer) (file : FileInfo)
    (m : MessageInfo) (code : String) (args : List String)
    (h1 : a.ignore = []) (h2 : m.ignore = []) (h3 : m.ignoreAll = false) :
    addEntryWarning a file (EntryInfo.msg m) code args
      = addDiagnostic a DiagnosticSeverity.Warning file
        (createWarning code m.idSpan args) := by
  simp [addEntryWarning, h3, shouldIgnore_eq, h1, h2]

/-- `checkMessageParams` is the identity when the target message and the
source message declare no parameters, the target references no variables,
and the target has no attributes. -/
theorem checkMessageParams_empty (a : Analyzer) (file : FileInfo)
    (m src : MessageInfo) (hm1 : m.params = []) (hm2 : m.vars = [])
    (hm3 : m.attributes = []) (hs1 : src.params = []) :
    checkMessageParams a file m (some src) false = a := by
  simp [checkMessageParams, checkParams, EntryInfo.params, EntryInfo.vars,
    hm1, hm2, hm3, hs1, mvalues]

/-- `compareAttributes` is the identity when both attribute maps are
empty. -/
theorem compareAttributes_empty (a : Analyzer) (file : FileInfo)
    (m : MessageInfo) (h1 : m.attributes = []) :
    compareAttributes a file m [] = a := by
  by_cases ht : m.isTerm = true <;>
    simp [compareAttributes, h1, mvalues, ht]

/-- C2 counterexample: the target message has no pattern value at all, the
source has one and is flagged `@expect-identical` — the code *does* emit
`mismatch-identical` (the guard `!isEq || message.value` is true whenever
the patterns are unequal), while the claim says that case is suppressed. -/
theorem C2_counterexample_mismatch_not_suppressed :
    ((compareMessages emptyAnalyzer fileA msgNoValue
        srcHelloExpect).getDiagnosticsForUri fileA.path.uri).map
      (fun d => d.code) = ["mismatch-identical"] := by
  rfl

/-- C2 (amended): with suppression configuration empty and no
attributes/parameters/variables in play, `compareMessages` emits
`identical` exactly when the patterns are equal, not expected identical,
and the target message *has* a pattern value; it emits
`mismatch-identical` exactly when the patterns are unequal and expected
identical — with no suppression for a value-less target (the no-value
suppression applies to `identical`, not to `mismatch-identical`); and it
emits nothing when `isEq` equals `expectEq`. -/
theorem C2_compareMessages_identity_check :
    ∀ (a : Analyzer) (file : FileInfo) (m src : MessageInfo),
      a.ignore = [] → m.ignore = [] → m.ignoreAll = false →
      m.attributes = [] → src.attributes = [] →
      m.params = [] → src.params = [] → m.vars = [] →
      src.translate = TranslateType.Required →
      (compareMessages a file m src).getDiagnosticsForUri file.path.uri
        = a.getDiagnosticsForUri file.path.uri
          ++ (if patternsEqual m.value src.value = true
                ∧ (m.expectIdentical || src.expectIdentical) = false
                ∧ m.value.isSome = true then
              [mkDiagnostic DiagnosticSeverity.Warning file
                (createWarning "identical" m.idSpan ["Message", m.name])]
            else if patternsEqual m.value src.value = false
                ∧ (m.expectIdentical || src.expectIdentical) = true then
              [mkDiagnostic DiagnosticSeverity.Warning file
                (createWarning "mismatch-identical" m.idSpan
                  ["Message", m.name])]
            else []) := by
  intro a file m src ha hmi hmall hmattr hsattr hmp hsp hmv hst
  have hclean : ∀ a2 : Analyzer,
      compareAttributes (checkMessageParams a2 file m (some src) false) file
        m src.attributes = a2 := by
    intro a2
    rw [checkMessageParams_empty a2 file m src hmp hmv hmattr hsp, hsattr,
      compareAttributes_empty a2 file m hmattr]
  have hemit : ∀ (code : String) (args : List String),
      addEntryWarning a file (EntryInfo.msg m) code args
        = addDiagnostic a DiagnosticSeverity.Warning file
          (createWarning code m.idSpan args) :=
    fun code args => addEntryWarning_noignore a file m code args ha hmi hmall
  cases hEq : patternsEqual m.value src.value <;>
    cases hExp : (m.expectIdentical || src.expectIdentical) <;>
      cases hVal : m.value.isSome <;>
        simp [compareMessages, hst, hEq, hExp, hVal, hclean, hemit,
          getDiagnosticsForUri_addDiagnostic]

/-- C2 witness: the amended theorem applied at a concrete input — equal
patterns, no `@expect-identical`, a present value — yields exactly one
`identical` diagnostic. -/
theorem C2_witness :
    (compareMessages emptyAnalyzer fileA msgHi msgHi).getDiagnosticsForUri
        fileA.path.uri
      = [mkDiagnostic DiagnosticSeverity.Warning fileA
          (createWarning "identical" msgHi.idSpan ["Message", "msg"])] := by
  have h := C2_compareMessages_identity_check emptyAnalyzer fileA msgHi msgHi
    rfl rfl rfl rfl rfl rfl rfl rfl rfl
  rw [h]
  rfl

/-- `checkMessageParams` against no source entry is the identity when the
message declares no parameters, references no variables, and has no
attributes. -/
theorem checkMessageParams_none_empty (a : Analyzer) (file : FileInfo)
    (m : MessageInfo) (hm1 : m.params = []) (hm2 : m.vars = [])
    (hm3 : m.attributes = []) :
    checkMessageParams a file m none true = a := by
  simp [checkMessageParams, checkParams, EntryInfo.params, EntryInfo.vars,
    hm1, hm2, hm3, mvalues]

/-- `addDiagnostic` does not touch the engine configuration. -/
theorem addDiagnostic_ignore (a : Analyzer) (sev : DiagnosticSeverity)
    (file : FileInfo) (r : IReportable) :
    (addDiagnostic a sev file r).ignore = a.ignore := rfl

/-- The message loop of `checkSourceGroup`, characterized: starting from any
seen-set, it appends exactly one `duplicate` diagnostic (at the occurrence's
identifier span) for every message whose id was already seen. -/
theorem checkSrcMsgFold (file : FileInfo) :
    ∀ (msgs : List MessageInfo) (a : Analyzer) (seen : List String),
      a.ignore = [] →
      (∀ m ∈ msgs, m.ignore = [] ∧ m.ignoreAll = false ∧ m.params = []
        ∧ m.vars = [] ∧ m.attributes = []) →
      ((msgs.foldl (checkSrcMsgStep file) (a, seen)).1).getDiagnosticsForUri
          file.path.uri
        = a.getDiagnosticsForUri file.path.uri
          ++ (laterDuplicates seen msgs).map
            (fun m => mkDiagnostic DiagnosticSeverity.Warning file
              (createWarning "duplicate" m.idSpan ["message", m.name])) := by
  intro msgs
  induction msgs with
  | nil => intro a seen _ _; simp [laterDuplicates]
  | cons m rest ih =>
    intro a seen ha hall
    obtain ⟨hmi, hmall, hmp, hmv, hmattr⟩ := hall m (List.mem_cons_self m rest)
    have hrest := fun m2 hm2 => hall m2 (List.mem_cons_of_mem m hm2)
    have hstep : checkSrcMsgStep file (a, seen) m
        = ((if seen.contains m.id then
              addEntryWarning a file (EntryInfo.msg m) "duplicate"
                ["message", m.name]
            else a), sadd seen m.id) := by
      by_cases hc : seen.contains m.id = true <;>
        simp [checkSrcMsgStep, hc,
          checkMessageParams_none_empty _ file m hmp hmv hmattr]
    by_cases hc : seen.contains m.id = true
    · rw [List.foldl_cons, hstep, if_pos hc,
        addEntryWarning_noignore a file m _ _ ha hmi hmall]
      rw [ih (addDiagnostic a DiagnosticSeverity.Warning file
        (createWarning "duplicate" m.idSpan ["message", m.name]))
        (sadd seen m.id) ha hrest]
      rw [getDiagnosticsForUri_addDiagnostic]
      simp only [laterDuplicates]
      rw [if_pos hc]
      simp
    · rw [List.foldl_cons, hstep, if_neg hc, ih _ _ ha hrest]
      simp only [laterDuplicates]
      rw [if_neg hc]

/-- C7: for a file whose messages carry no suppression configuration and no
parameter annotations, the intra-file source check emits exactly one
`duplicate` diagnostic for every message occurrence whose identifier
already occurred earlier in the file — placed at that occurrence's
identifier span — and never for a first occurrence. -/
theorem C7_duplicate_per_later_occurrence :
    ∀ (a : Analyzer) (loc uriKey : String) (file : FileInfo),
      a.ignore = [] →
      (∀ m ∈ file.messages, m.ignore = [] ∧ m.ignoreAll = false
        ∧ m.params = [] ∧ m.vars = [] ∧ m.attributes = []) →
      file.terms = [] →
      (checkSourceGroup a { locale := loc, files := [(uriKey, file)] }
          ).getDiagnosticsForUri file.path.uri
        = a.getDiagnosticsForUri file.path.uri
          ++ (laterDuplicates [] file.messages).map
            (fun m => mkDiagnostic DiagnosticSeverity.Warning file
              (createWarning "duplicate" m.idSpan ["message", m.name])) := by
  intro a loc uriKey file ha hall hterms
  have h1 : checkSourceGroup a { locale := loc, files := [(uriKey, file)] }
      = (file.messages.foldl (checkSrcMsgStep file) (a, [])).1 := by
    simp [checkSourceGroup, mvalues, checkSourceFile, hterms]
  rw [h1, checkSrcMsgFold file file.messages a [] ha hall]

/-- C7 witness: the theorem applied to a file holding `msg = Hi` twice —
exactly one `duplicate` warning, placed on the second occurrence's
identifier span. -/
theorem C7_witness :
    (checkSourceGroup emptyAnalyzer
        { locale := "en", files := [("file:///base/en/a.ftl", dupFile)] }
        ).getDiagnosticsForUri dupFile.path.uri
      = [mkDiagnostic DiagnosticSeverity.Warning dupFile
          (createWarning "duplicate" { start := 9, stop := 12 }
            ["message", "msg"])] := by
  have h := C7_duplicate_per_later_occurrence emptyAnalyzer "en"
    "file:///base/en/a.ftl" dupFile rfl ?hall rfl
  case hall =>
    intro m hm
    simp only [dupFile, List.mem_cons, List.not_mem_nil, or_false] at hm
    rcases hm with rfl | rfl <;> exact ⟨rfl, rfl, rfl, rfl, rfl⟩
  rw [h]
  rfl

/-- `shouldIgnore` only reads the engine's ignore configuration. -/
theorem shouldIgnore_congr (a1 a2 : Analyzer) (code : String)
    (sets : List (List String)) (hig : a1.ignore = a2.ignore) :
    shouldIgnore a1 code sets = shouldIgnore a2 code sets := by
  simp [shouldIgnore, hig]

/-- `addDiagnostic` on two analyzers with the same configuration and the
same list at `u` yields the same configuration and the same list at `u`. -/
theorem addDiagnostic_bisim (u : String) (a1 a2 : Analyzer)
    (sev : DiagnosticSeverity) (file : FileInfo) (r : IReportable)
    (hig : a1.ignore = a2.ignore)
    (hd : rget a1.diagnostics u = rget a2.diagnostics u) :
    (addDiagnostic a1 sev file r).ignore = (addDiagnostic a2 sev file r).ignore
    ∧ rget (addDiagnostic a1 sev file r).diagnostics u
      = rget (addDiagnostic a2 sev file r).diagnostics u := by
  refine ⟨hig, ?_⟩
  simp only [addDiagnostic]
  by_cases h : file.path.uri = u
  · subst h
    rw [rget_pushDiag, rget_pushDiag, hd]
  · rw [rget_pushDiag_ne _ _ _ (fun hh => h hh.symm),
      rget_pushDiag_ne _ _ _ (fun hh => h hh.symm), hd]

/-- `addEntryWarning` is a bisimulation step in the same sense. -/
theorem addEntryWarning_bisim (u : String) (a1 a2 : Analyzer)
    (file : FileInfo) (entry : EntryInfo) (code : String)
    (args : List String) (hig : a1.ignore = a2.ignore)
    (hd : rget a1.diagnostics u = rget a2.diagnostics u) :
    (addEntryWarning a1 file entry code args).ignore
      = (addEntryWarning a2 file entry code args).ignore
    ∧ rget (addEntryWarning a1 file entry code args).diagnostics u
      = rget (addEntryWarning a2 file entry code args).diagnostics u := by
  cases entry with
  | msg m =>
    simp only [addEntryWarning]
    by_cases hall : m.ignoreAll = true
    · simp [hall, hig, hd]
    · rw [if_neg hall, if_neg hall,
        shouldIgnore_congr a1 a2 code [m.ignore] hig]
      by_cases hsi : shouldIgnore a2 code [m.ignore] = true
      · simp [hsi, hig, hd]
      · rw [if_neg hsi, if_neg hsi]
        exact addDiagnostic_bisim u a1 a2 _ file _ hig hd
  | attr at_ =>
    simp only [addEntryWarning]
    exact addDiagnostic_bisim u a1 a2 _ file _ hig hd

/-- The attribute conversion fold of `convertMessage` is a bisimulation
step: configuration and the `u`-list evolve identically, and the attribute
record it builds is the same. -/
theorem convertAttrFold_bisim (u : String) (state : AnnotState)
    (name : String) :
    ∀ (attrs : List AstAttr) (a1 a2 : Analyzer)
      (rec : List (String × AttributeInfo)),
      a1.ignore = a2.ignore →
      rget a1.diagnostics u = rget a2.diagnostics u →
      (attrs.foldl (convertAttrStep state name) (a1, rec)).1.ignore
        = (attrs.foldl (convertAttrStep state name) (a2, rec)).1.ignore
      ∧ rget (attrs.foldl (convertAttrStep state name)
          (a1, rec)).1.diagnostics u
        = rget (attrs.foldl (convertAttrStep state name)
            (a2, rec)).1.diagnostics u
      ∧ (attrs.foldl (convertAttrStep state name) (a1, rec)).2
        = (attrs.foldl (convertAttrStep state name) (a2, rec)).2 := by
  intro attrs
  induction attrs with
  | nil => intro a1 a2 rec hig hd; exact ⟨hig, hd, rfl⟩
  | cons attr rest ih =>
    intro a1 a2 rec hig hd
    simp only [List.foldl_cons, convertAttrStep]
    by_cases hdup : (rget rec attr.id).isSome
    · simp only [hdup, if_true]
      have hb := fun (e : EntryInfo) (args : List String) =>
        addEntryWarning_bisim u a1 a2 state.file e "duplicate" args hig hd
      exact ih _ _ _ (hb _ _).1 (hb _ _).2
    · simp only [hdup, if_false]
      exact ih _ _ _ hig hd

/-- `convertMessage` is a bisimulation step and returns the same record. -/
theorem convertMessage_bisim (u : String) (a1 a2 : Analyzer)
    (entry : AstEntryData) (state : AnnotState) (isTerm : Bool)
    (hig : a1.ignore = a2.ignore)
    (hd : rget a1.diagnostics u = rget a2.diagnostics u) :
    (convertMessage a1 entry state isTerm).1.ignore
      = (convertMessage a2 entry state isTerm).1.ignore
    ∧ rget (convertMessage a1 entry state isTerm).1.diagnostics u
      = rget (convertMessage a2 entry state isTerm).1.diagnostics u
    ∧ (convertMessage a1 entry state isTerm).2
      = (convertMessage a2 entry state isTerm).2 := by
  have hf := convertAttrFold_bisim u state
    (if isTerm then "-" ++ entry.id else entry.id) entry.attributes a1 a2 []
    hig hd
  simp only [convertMessage]
  cases entry.comment with
  | none => exact ⟨hf.1, hf.2.1, by rw [hf.2.2]⟩
  | some c => exact ⟨hf.1, hf.2.1, by rw [hf.2.2]⟩

/-- The junk-error fold is a bisimulation step. -/
theorem junkFold_bisim (u : String) (file : FileInfo) :
    ∀ (annots : List JunkAnnot) (a1 a2 : Analyzer),
      a1.ignore = a2.ignore →
      rget a1.diagnostics u = rget a2.diagnostics u →
      (annots.foldl (addJunkError file) a1).ignore
        = (annots.foldl (addJunkError file) a2).ignore
      ∧ rget (annots.foldl (addJunkError file) a1).diagnostics u
        = rget (annots.foldl (addJunkError file) a2).diagnostics u := by
  intro annots
  induction annots with
  | nil => intro a1 a2 hig hd; exact ⟨hig, hd⟩
  | cons an rest ih =>
    intro a1 a2 hig hd
    simp only [List.foldl_cons, addJunkError, addError]
    have hb := addDiagnostic_bisim u a1 a2 DiagnosticSeverity.Error file
      { code := an.code, message := an.message, span := an.span } hig hd
    exact ih _ _ hb.1 hb.2

/-- The entry loop of `readFile` is a bisimulation step: the resulting file and
state are identical, and configuration and the `u`-list evolve
identically. -/
theorem readEntriesFold_bisim (u : String) :
    ∀ (entries : List FtlEntry) (a1 a2 : Analyzer) (file : FileInfo)
      (state : AnnotState),
      a1.ignore = a2.ignore →
      rget a1.diagnostics u = rget a2.diagnostics u →
      (entries.foldl readEntryStep (a1, file, state)).1.ignore
        = (entries.foldl readEntryStep (a2, file, state)).1.ignore
      ∧ rget (entries.foldl readEntryStep (a1, file, state)).1.diagnostics u
        = rget (entries.foldl readEntryStep (a2, file, state)).1.diagnostics u
      ∧ (entries.foldl readEntryStep (a1, file, state)).2
        = (entries.foldl readEntryStep (a2, file, state)).2 := by
  intro entries
  induction entries with
  | nil => intro a1 a2 file state hig hd; exact ⟨hig, hd, rfl⟩
  | cons e rest ih =>
    intro a1 a2 file state hig hd
    simp only [List.foldl_cons]
    cases e with
    | term d =>
      have hb := convertMessage_bisim u a1 a2 d state true hig hd
      simp only [readEntryStep]
      rw [hb.2.2]
      exact ih _ _ _ _ hb.1 hb.2.1
    | message d =>
      have hb := convertMessage_bisim u a1 a2 d state false hig hd
      simp only [readEntryStep]
      rw [hb.2.2]
      exact ih _ _ _ _ hb.1 hb.2.1
    | resourceComment c =>
      simp only [readEntryStep]
      exact ih _ _ _ _ hig hd
    | junk annots =>
      simp only [readEntryStep]
      have hb := junkFold_bisim u file annots a1 a2 hig hd
      exact ih _ _ _ _ hb.1 hb.2
    | skipped =>
      simp only [readEntryStep]
      exact ih _ _ _ _ hig hd

/-- Deleting a key makes its list unreadable. -/
theorem rget_mdelete_self {α : Type} (u : String) :
    ∀ m : List (String × α), rget (mdelete m u) u = none := by
  intro m
  induction m with
  | nil => rfl
  | cons p rest ih =>
    by_cases hp : p.1 = u
    · simpa [mdelete, hp] using ih
    · simpa [mdelete, hp, rget, List.find?_cons_of_neg,
        beq_eq_false_iff_ne, hp] using ih

/-- C9: re-parsing clears the per-file diagnostic list first, so the
diagnostics `readFile` leaves for the file's URI do not depend on any
diagnostics recorded before (only on the engine configuration and the file
itself); the clearing stands even when the re-read of the content fails;
and a URI with no recorded list reads back as the empty list. -/
theorem C9_read_clears_previous_diagnostics :
    (∀ (a1 a2 : Analyzer) (f : FileInfo), a1.ignore = a2.ignore →
      (readFile a1 f).1.getDiagnosticsForUri f.path.uri
        = (readFile a2 f).1.getDiagnosticsForUri f.path.uri)
    ∧ (∀ (a : Analyzer) (f : FileInfo), f.parsed = none →
        (readFile a f).1.getDiagnosticsForUri f.path.uri = [])
    ∧ (∀ (a : Analyzer) (u : String), rget a.diagnostics u = none →
        a.getDiagnosticsForUri u = []) := by
  refine ⟨?_, ?_, ?_⟩
  · intro a1 a2 f hig
    cases hp : f.parsed with
    | none =>
      simp [readFile, parse, hp, Analyzer.getDiagnosticsForUri,
        rget_mdelete_self]
    | some pd =>
      simp only [readFile, parse, hp]
      have hb := readEntriesFold_bisim f.path.uri pd.body
        { a1 with diagnostics := mdelete a1.diagnostics f.path.uri }
        { a2 with diagnostics := mdelete a2.diagnostics f.path.uri }
        { f with content := pd.content, hash := some pd.content }
        { file := { f with content := pd.content, hash := some pd.content },
          ignore := [], translate := TranslateType.Required }
        hig
        (by rw [rget_mdelete_self, rget_mdelete_self])
      simpa [Analyzer.getDiagnosticsForUri, hp] using
        congrArg (fun o : Option (List DiagnosticInfo) => o.getD []) hb.2.1
  · intro a f hp
    simp [readFile, parse, hp, Analyzer.getDiagnosticsForUri, rget_mdelete_self]
  · intro a u h
    simp [Analyzer.getDiagnosticsForUri, h]

/-- C9 witness: the theorem applied at concrete inputs — an analyzer still
holding a stale diagnostic reads a file to the same per-file diagnostics as
a fresh analyzer; a failed content re-read still leaves the list cleared; an
unknown URI reads back empty. -/
theorem C9_witness :
    ((readFile dirtyAnalyzer parsedFile).1.getDiagnosticsForUri
        parsedFile.path.uri
      = (readFile emptyAnalyzer parsedFile).1.getDiagnosticsForUri
        parsedFile.path.uri)
    ∧ (readFile dirtyAnalyzer unreadableFile).1.getDiagnosticsForUri
        unreadableFile.path.uri = []
    ∧ emptyAnalyzer.getDiagnosticsForUri "file:///nowhere" = [] := by
  refine ⟨?_, ?_, ?_⟩
  · exact C9_read_clears_previous_diagnostics.1 dirtyAnalyzer emptyAnalyzer
      parsedFile rfl
  · exact C9_read_clears_previous_diagnostics.2.1 dirtyAnalyzer
      unreadableFile rfl
  · exact C9_read_clears_previous_diagnostics.2.2 emptyAnalyzer
      "file:///nowhere" rfl

/-- C1 counterexample: a collection whose only group is `fr` (the configured
source locale is `en`) and whose file duplicates the message id `msg`.
Contrary to the claim, the intra-file duplicate check is NOT still performed:
processing the collection emits no diagnostic at all, while the intra-file
check itself, run on the same group, would flag the second occurrence. -/
theorem C1_counterexample_intra_checks_skipped :
    (processCollection emptyAnalyzer frDupCollection).1.getDiagnostics = []
    ∧ (checkSourceGroup emptyAnalyzer frDupGroup).getDiagnostics
        = [mkDiagnostic DiagnosticSeverity.Warning dupFile
            (createWarning "duplicate" { start := 9, stop := 12 }
              ["message", "msg"])] :=
  ⟨rfl, rfl⟩

/-- C1 (amended): when no group of the collection is stored under the
configured source-locale key after the read pass, `processCollection` is the
read pass alone — it returns right after reading every group, so neither the
intra-file duplicate checks (`checkSourceGroup`) nor the differential
comparison (`compareGroups`) run on any group of the collection. -/
theorem C1_no_source_group_skips_all_checks (a : Analyzer)
    (c : FileCollection)
    (h : rget (readPassOnly a c).2 (readPassOnly a c).1.sourceLocale
        = none) :
    processCollection a c
      = ((readPassOnly a c).1,
         { c with groups := (readPassOnly a c).2 }) := by
  simp only [processCollection, readPassOnly] at h ⊢
  rw [h]

/-- C1 witness: the amended theorem applied to the concrete `fr`-only
collection — processing it is exactly the read pass. -/
theorem C1_witness :
    processCollection emptyAnalyzer frDupCollection
      = ((readPassOnly emptyAnalyzer frDupCollection).1,
         { frDupCollection with
            groups := (readPassOnly emptyAnalyzer frDupCollection).2 }) :=
  C1_no_source_group_skips_all_checks emptyAnalyzer frDupCollection rfl

/-- The entry loop never touches the file's ignore set. -/
theorem readEntryFold_ignore (entries : List FtlEntry) :
    ∀ acc : Analyzer × FileInfo × AnnotState,
    ((entries.foldl readEntryStep acc).2.1).ignore = acc.2.1.ignore := by
  induction entries with
  | nil => intro acc; rfl
  | cons e rest ih =>
    intro acc
    rw [List.foldl_cons, ih]
    cases e <;> rfl


/-- A set add makes the element present. -/
theorem sadd_contains (l : List String) (x : String) :
    (sadd l x).contains x = true := by
  by_cases h : l.contains x = true
  · rw [sadd, if_pos h]; exact h
  · rw [sadd, if_neg h]
    simp

/-- On a successfully parsed file, `readFile` is the entry loop followed by
the tail. -/
theorem readFile_eq_tail (a : Analyzer) (f : FileInfo) (pd : ParseData)
    (hp : f.parsed = some pd) :
    readFile a f
      = readFileTail (readLoop a f pd).1 (readLoop a f pd).2.1
          (readLoop a f pd).2.2 := by
  simp only [readFile, parse, hp, readFileTail, readLoop,
    ignoreMissingFileCond]

/-- The tail leaves `missing-file` in the ignore set of a file whose ignore
set was unset exactly when the `ignoreMissingFile` condition holds. -/
theorem readFileTail_ignore_missing (a1 : Analyzer) (f1 : FileInfo)
    (st : AnnotState) (hI : f1.ignore = none) :
    (((readFileTail a1 f1 st).2.ignore).getD []).contains "missing-file"
      = ignoreMissingFileCond st := by
  simp only [readFileTail]
  cases hU : (st.ignoreAll || st.ignore.contains "unknown-file"
      || st.ignore.contains "unknown") <;>
  cases hM : ignoreMissingFileCond st <;>
  simp [hU, hM, hI, sadd, sadd_contains, apply_ite FileInfo.ignore]

/-- For a freshly created file record (`ignore` unset), the `read` pass
leaves `missing-file` in the file's ignore set exactly when the final
resource state's `ignoreMissingFile` condition holds. -/
theorem readFile_ignore_missing (a : Analyzer) (f : FileInfo)
    (pd : ParseData) (hp : f.parsed = some pd) (hig : f.ignore = none) :
    (((readFile a f).2.ignore).getD []).contains "missing-file"
      = ignoreMissingFileCond (readState a f pd) := by
  rw [readFile_eq_tail a f pd hp]
  have hI : (readLoop a f pd).2.1.ignore = none := by
    simp only [readLoop]
    rw [readEntryFold_ignore]
    exact hig
  exact readFileTail_ignore_missing _ _ _ hI

/-- C5: a source file with no basename-matching file in the target group
(the differential sweep over an empty target group) emits exactly one
`missing-file` warning, and the warning is suppressed exactly when the
`read` pass's final resource-annotation state satisfies the
`ignoreMissingFile` condition: disable-all, a resource-level translation
policy other than `Required`, or a resource annotation disabling the
`missing-file` code or the `missing` category. -/
theorem C5_missing_file_suppression (a : Analyzer) (f : FileInfo)
    (pd : ParseData) (tgtLocale srcLocale u : String)
    (hp : f.parsed = some pd) (hig : f.ignore = none) :
    compareGroups (readFile a f).1
        { locale := tgtLocale, files := [] }
        { locale := srcLocale, files := [(u, (readFile a f).2)] }
      = (if ignoreMissingFileCond (readState a f pd)
         then (readFile a f).1
         else
           addWarning (readFile a f).1 (readFile a f).2 "missing-file"
             { start := 0, stop := 0 }
             [pathJoin [pathDirname (pathDirname
                  (getDisplayPath (readFile a f).1 (readFile a f).2)),
                tgtLocale, (readFile a f).2.name ++ ".ftl"]]) := by
  have hstep : compareGroups (readFile a f).1
      { locale := tgtLocale, files := [] }
      { locale := srcLocale, files := [(u, (readFile a f).2)] }
    = addMissingFileWarning (readFile a f).1 (readFile a f).2 tgtLocale := rfl
  rw [hstep]
  simp only [addMissingFileWarning, readFile_ignore_missing a f pd hp hig]

/-- C5 witness: the theorem applied to a concrete parsed file with no
resource annotations — the suppression condition computes to `false`, so
the sweep emits the `missing-file` warning. -/
theorem C5_witness :
    (compareGroups (readFile emptyAnalyzer parsedFile).1
        { locale := "fr", files := [] }
        { locale := "en",
          files := [("file:///base/en/a.ftl",
            (readFile emptyAnalyzer parsedFile).2)] }
      = (if ignoreMissingFileCond (readState emptyAnalyzer parsedFile pdHi)
         then (readFile emptyAnalyzer parsedFile).1
         else
           addWarning (readFile emptyAnalyzer parsedFile).1
             (readFile emptyAnalyzer parsedFile).2 "missing-file"
             { start := 0, stop := 0 }
             [pathJoin [pathDirname (pathDirname
                  (getDisplayPath (readFile emptyAnalyzer parsedFile).1
                    (readFile emptyAnalyzer parsedFile).2)),
                "fr", (readFile emptyAnalyzer parsedFile).2.name ++ ".ftl"]]))
    ∧ ignoreMissingFileCond (readState emptyAnalyzer parsedFile pdHi)
        = false :=
  ⟨C5_missing_file_suppression emptyAnalyzer parsedFile pdHi "fr" "en"
      "file:///base/en/a.ftl" rfl rfl,
    rfl⟩

namespace Discover

/-- Lookup distributes over path concatenation. -/
theorem lookupNode_append (p q : List String) :
    ∀ n : FsNode, lookupNode n (p ++ q)
      = (lookupNode n p).bind (fun m => lookupNode m q) := by
  induction p with
  | nil => intro n; rfl
  | cons seg rest ih =>
    intro n
    cases n with
    | file => rfl
    | dir entries =>
      simp only [List.cons_append, lookupNode]
      cases entries.find? (fun e => e.1 == seg) with
      | none => rfl
      | some e => exact ih e.2

/-- A well-formed tree is well-formed at every reachable node. -/
theorem wf_lookup : ∀ (p : List String) (n m : FsNode),
    WfFs n → lookupNode n p = some m → WfFs m := by
  intro p
  induction p with
  | nil =>
    intro n m hw h
    cases h
    exact hw
  | cons seg rest ih =>
    intro n m hw h
    cases n with
    | file => cases h
    | dir entries =>
      simp only [lookupNode] at h
      cases hf : entries.find? (fun e => e.1 == seg) with
      | none => rw [hf] at h; cases h
      | some e =>
        rw [hf] at h
        cases hw with
        | dir _ hn he =>
          exact ih e.2 m (he e (List.mem_of_find?_eq_some hf)) h

/-- A successful lookup of `p ++ [x]` passes through a directory at `p`
holding an entry named `x` for the found node. -/
theorem lookup_snoc {root : FsNode} {p : List String} {x : String}
    {m : FsNode} (h : lookupNode root (p ++ [x]) = some m) :
    ∃ es, lookupNode root p = some (.dir es) ∧ (x, m) ∈ es := by
  rw [lookupNode_append] at h
  cases hl : lookupNode root p with
  | none => rw [hl] at h; cases h
  | some n =>
    rw [hl] at h
    cases n with
    | file => cases h
    | dir es =>
      refine ⟨es, rfl, ?_⟩
      simp only [Option.bind, lookupNode] at h
      cases hf : es.find? (fun e => e.1 == x) with
      | none => rw [hf] at h; cases h
      | some e =>
        rw [hf] at h
        have hx : e.1 = x := by
          have := List.find?_some hf
          simpa using this
        have hm : e.2 = m := by
          cases h
          rfl
        have : e = (x, m) := by
          cases e
          simp only at hx hm
          rw [hx, hm]
        rw [← this]
        exact List.mem_of_find?_eq_some hf

/-- With distinct sibling names, `find?` locates exactly a known entry. -/
theorem find?_of_mem_nodup : ∀ (es : List (String × FsNode)) (d : String)
    (n : FsNode), (es.map (fun e => e.1)).Nodup → (d, n) ∈ es →
    es.find? (fun e => e.1 == d) = some (d, n) := by
  intro es
  induction es with
  | nil => intro d n _ hm; cases hm
  | cons e rest ih =>
    intro d n hn hm
    rw [List.map_cons, List.nodup_cons] at hn
    rcases List.mem_cons.mp hm with heq | hm'
    · rw [← heq]
      simp [List.find?_cons]
    · have hne : (e.1 == d) = false := by
        apply beq_eq_false_iff_ne.mpr
        intro hEq
        exact hn.1 (hEq ▸ (List.mem_map_of_mem (fun e => e.1) hm'))
      rw [List.find?_cons_of_neg _ (by simp [hne]), ih d n hn.2 hm']

end Discover

namespace Discover

/-- A locale directory passing `getCollection`'s scan lists exactly its
entry names. -/
theorem localeFtlFiles_eq : ∀ (les : List (String × FsNode))
    (fs : List String), localeFtlFiles les = some fs →
    fs = les.map (fun e => e.1) := by
  intro les
  induction les with
  | nil =>
    intro fs h
    cases h
    rfl
  | cons e rest ih =>
    intro fs h
    obtain ⟨n, node⟩ := e
    cases node with
    | dir es => cases h
    | file =>
      simp only [localeFtlFiles] at h
      split at h
      · cases hr : localeFtlFiles rest with
        | none => rw [hr] at h; cases h
        | some fs' =>
          rw [hr] at h
          cases h
          rw [List.map_cons]
          rw [ih fs' hr]
      · cases h

/-- `groupsUris` unfolds one group. -/
theorem groupsUris_cons (l0 : String) (g : DGroup)
    (gs : List (String × DGroup)) :
    groupsUris ((l0, g) :: gs)
      = g.files.map (fun p => p.1) ++ groupsUris gs := by
  simp [groupsUris]

/-- Keys of a freshly built file map. -/
theorem files_keys_map (curPath : List String) (l0 : String)
    (fs : List String) :
    (fs.map (fun f => (curPath ++ [l0, f],
        createFileRecord (curPath ++ [l0, f])))).map (fun p => p.1)
      = fs.map (fun f => curPath ++ [l0, f]) := by
  induction fs with
  | nil => rfl
  | cons f rest ih => simp only [List.map_cons, ih]

/-- Structure of a successfully built candidate: every URI comes from a
locale entry and names a file directly inside it; a known locale
directory's files are all present; with distinct sibling names everywhere
the URI list is duplicate-free. -/
theorem buildGroups_struct : ∀ (ges : List (String × FsNode))
    (curPath : List String) (gs : List (String × DGroup)),
    buildGroups curPath ges = some gs →
    (∀ u ∈ groupsUris gs,
       ∃ l f, l ∈ ges.map (fun e => e.1) ∧ u = curPath ++ [l, f])
    ∧ (∀ l cur, (l, FsNode.dir cur) ∈ ges → ∀ f ∈ cur.map (fun e => e.1),
        curPath ++ [l, f] ∈ groupsUris gs)
    ∧ ((ges.map (fun e => e.1)).Nodup →
       (∀ e ∈ ges, WfFs e.2) →
       (groupsUris gs).Nodup) := by
  intro ges
  induction ges with
  | nil =>
    intro curPath gs h
    cases h
    refine ⟨?_, ?_, ?_⟩
    · intro u hu; simp [groupsUris] at hu
    · intro l cur hmem; cases hmem
    · intro _ _; simp [groupsUris]
  | cons e rest ih =>
    intro curPath gs h
    obtain ⟨l0, node⟩ := e
    cases node with
    | file => cases h
    | dir les =>
      simp only [buildGroups] at h
      cases hl : localeFtlFiles les with
      | none => rw [hl] at h; cases h
      | some fs =>
        rw [hl] at h
        cases hb : buildGroups curPath rest with
        | none => rw [hb] at h; cases h
        | some gs' =>
          rw [hb] at h
          simp only [Option.map_some] at h
          obtain ⟨hshape, hmem, hnd⟩ := ih curPath gs' hb
          have hfs : fs = les.map (fun e => e.1) := localeFtlFiles_eq les fs hl
          by_cases hfe : fs = []
          · have hgs : gs = gs' := by have h2 := Option.some.inj h; rw [← h2]; simp [hfe]
            subst hgs
            refine ⟨?_, ?_, ?_⟩
            · intro u hu
              obtain ⟨l, f, hlm, hu⟩ := hshape u hu
              exact ⟨l, f, by simp [hlm], hu⟩
            · intro l cur hc f hf
              rcases List.mem_cons.mp hc with heq | hc'
              · have hd : FsNode.dir cur = FsNode.dir les := congrArg Prod.snd heq
                have hcur : cur = les := by cases hd; rfl
                subst hcur
                rw [hfs] at hfe
                rw [hfe] at hf
                cases hf
              · exact hmem l cur hc' f hf
            · intro hn hw
              rw [List.map_cons, List.nodup_cons] at hn
              exact hnd hn.2 (fun x hx => hw x (List.mem_cons_of_mem _ hx))
          · have hgs : gs = (l0, { locale := l0, files := fs.map (fun f => (curPath ++ [l0, f], createFileRecord (curPath ++ [l0, f]))) }) :: gs' := by have h2 := Option.some.inj h; rw [← h2]; simp [hfe]
            subst hgs
            have hexp : groupsUris ((l0, { locale := l0, files := fs.map (fun f => (curPath ++ [l0, f], createFileRecord (curPath ++ [l0, f]))) }) :: gs') = fs.map (fun f => curPath ++ [l0, f]) ++ groupsUris gs' := by
              rw [groupsUris_cons]
              exact congrArg (fun t => t ++ groupsUris gs') (files_keys_map curPath l0 fs)
            refine ⟨?_, ?_, ?_⟩
            · intro u hu
              rw [hexp] at hu
              rcases List.mem_append.mp hu with hu1 | hu2
              · obtain ⟨f, _, rfl⟩ := List.mem_map.mp hu1
                exact ⟨l0, f, by simp, rfl⟩
              · obtain ⟨l, f, hlm, hu⟩ := hshape u hu2
                exact ⟨l, f, by simp [hlm], hu⟩
            · intro l cur hc f hf
              rw [hexp]
              rcases List.mem_cons.mp hc with heq | hc'
              · have hl1 : l = l0 := congrArg Prod.fst heq
                have hd : FsNode.dir cur = FsNode.dir les := congrArg Prod.snd heq
                have hcur : cur = les := by cases hd; rfl
                subst hl1 hcur
                refine List.mem_append.mpr (Or.inl ?_)
                refine List.mem_map.mpr ⟨f, ?_, rfl⟩
                rw [hfs]
                exact hf
              · exact List.mem_append.mpr (Or.inr (hmem l cur hc' f hf))
            · intro hn hw
              rw [hexp, List.nodup_append]
              rw [List.map_cons, List.nodup_cons] at hn
              refine ⟨?_, hnd hn.2
                  (fun x hx => hw x (List.mem_cons_of_mem _ hx)), ?_⟩
              · have hwl : WfFs (.dir les) :=
                  hw (l0, .dir les) (List.mem_cons_self _ _)
                have hfsnd : fs.Nodup := by
                  rw [hfs]
                  cases hwl with
                  | dir _ hnl _ => exact hnl
                refine List.Nodup.map ?_ hfsnd
                intro f1 f2 hEq
                have := List.append_inj hEq rfl
                simpa using this.2
              · rw [List.disjoint_left]
                intro u hu1 hu2
                obtain ⟨f, _, rfl⟩ := List.mem_map.mp hu1
                obtain ⟨l, f', hlm, hu⟩ := hshape _ hu2
                have hlf : l0 = l ∧ f = f' := by
                  have h3 := List.append_inj hu rfl
                  have h2 := h3.2
                  simp at h2
                  exact h2
                exact hn.1 (hlf.1 ▸ hlm)

end Discover

namespace Discover

/-- Anatomy of a successful collection: the candidate directory exists, its
groups were built from its listing, and the collection records the
candidate path. -/
theorem getCollection_elim {root : FsNode} {g : List String}
    {c : DCollection} (h : getCollection root g = some c) :
    ∃ ges, lookupNode root g = some (.dir ges)
      ∧ buildGroups g ges = some c.groups ∧ c.path = g := by
  cases hl : lookupNode root g with
  | none =>
    simp only [getCollection, hl] at h
    cases h
  | some n =>
    cases n with
    | file =>
      simp only [getCollection, hl] at h
      cases h
    | dir ges =>
      simp only [getCollection, hl] at h
      split at h
      · cases hb : buildGroups g ges with
        | none =>
          rw [hb] at h
          cases h
        | some gs =>
          rw [hb] at h
          injection h with h2
          refine ⟨ges, rfl, ?_, ?_⟩
          · rw [← h2]
            exact hb
          · rw [← h2]
      · cases h

/-- `collectionUris` through `groupsUris`. -/
theorem collectionUris_eq (c : DCollection) :
    collectionUris c = groupsUris c.groups := rfl

/-- Every URI of a collection names a file directly inside a locale
directory of the candidate path. -/
theorem getCollection_mem_shape {root : FsNode} {g : List String}
    {c : DCollection} (h : getCollection root g = some c) :
    ∀ u ∈ collectionUris c, ∃ l f, u = g ++ [l, f] := by
  obtain ⟨ges, _, hb, _⟩ := getCollection_elim h
  intro u hu
  rw [collectionUris_eq] at hu
  obtain ⟨l, f, _, hu⟩ := (buildGroups_struct ges g c.groups hb).1 u hu
  exact ⟨l, f, hu⟩

/-- In a well-formed tree, a collection's URI list is duplicate-free. -/
theorem getCollection_nodup {root : FsNode} {g : List String}
    {c : DCollection} (hw : WfFs root) (h : getCollection root g = some c) :
    (collectionUris c).Nodup := by
  obtain ⟨ges, hlk, hb, _⟩ := getCollection_elim h
  rw [collectionUris_eq]
  have hwd := wf_lookup g root _ hw hlk
  cases hwd with
  | dir _ hn he =>
    exact (buildGroups_struct ges g c.groups hb).2.2 hn he

/-- A walk-visited resource file inside a locale directory of a successful
candidate is among the collection's URIs. -/
theorem getCollection_trigger {root : FsNode} {g : List String}
    {c : DCollection} {l nm : String} {cur : List (String × FsNode)}
    (h : getCollection root g = some c)
    (hlk : lookupNode root (g ++ [l]) = some (.dir cur))
    (hnm : nm ∈ cur.map (fun e => e.1)) :
    g ++ [l, nm] ∈ collectionUris c := by
  obtain ⟨ges, hlk2, hb, _⟩ := getCollection_elim h
  obtain ⟨ges', hlk', hmem⟩ := lookup_snoc hlk
  have hge : ges' = ges := by
    have h3 := hlk'.symm.trans hlk2
    cases h3
    rfl
  rw [collectionUris_eq]
  exact (buildGroups_struct ges g c.groups hb).2.1 l cur (hge ▸ hmem) nm hnm

/-- Membership after a JS set add. -/
theorem mem_uadd {s : List (List String)} {v u : List String} :
    u ∈ uadd s v ↔ u ∈ s ∨ u = v := by
  by_cases h : s.contains v = true
  · have hv : v ∈ s := by simpa using h
    simp only [uadd, if_pos h]
    constructor
    · exact Or.inl
    · rintro (hu | rfl)
      · exact hu
      · exact hv
  · simp only [uadd, if_neg h, List.mem_append, List.mem_singleton]

/-- Membership after a fold of set adds. -/
theorem mem_foldl_uadd : ∀ (ls : List (List String))
    (s : List (List String)) (u : List String),
    u ∈ ls.foldl uadd s ↔ u ∈ s ∨ u ∈ ls := by
  intro ls
  induction ls with
  | nil => intro s u; simp
  | cons v rest ih =>
    intro s u
    rw [List.foldl_cons, ih, mem_uadd, List.mem_cons]
    tauto

/-- A JS map set with an unused key appends. -/
theorem msetU_fresh {m : List (List String × DFileInfo)} {k : List String}
    {v : DFileInfo} (h : ∀ p ∈ m, p.1 ≠ k) :
    msetU m k v = m ++ [(k, v)] := by
  cases hf : m.find? (fun p => p.1 == k) with
  | some p =>
    have hpm := List.mem_of_find?_eq_some hf
    have hpk := List.find?_some hf
    exact absurd (by simpa using hpk) (h p hpm)
  | none =>
    unfold msetU
    rw [hf]
    rfl

end Discover

namespace Discover

/-- Processing one directory entry of the walk's file loop preserves the
invariant, only grows the claimed set, and claims the entry itself when it
is a fresh resource file. -/
theorem filesStepOne (root : FsNode) (curPath : List String)
    (cur : List (String × FsNode)) (hw : WfFs root)
    (hcur : lookupNode root curPath = some (.dir cur))
    (e : String × FsNode) (he : e ∈ cur) (ctx : Ctx)
    (hinv : Inv root ctx) :
    Inv root (discoverFilesStep root curPath [e] ctx)
    ∧ (∀ u ∈ ctx.uris, u ∈ (discoverFilesStep root curPath [e] ctx).uris)
    ∧ (∀ nm, e = (nm, FsNode.file) → ftlName nm = true →
        curPath ++ [nm] ∈ (discoverFilesStep root curPath [e] ctx).uris) := by
  obtain ⟨nm, node⟩ := e
  cases node with
  | dir es =>
    have hid : discoverFilesStep root curPath [(nm, FsNode.dir es)] ctx
        = ctx := rfl
    rw [hid]
    refine ⟨hinv, fun u hu => hu, ?_⟩
    intro nm' hEq
    cases hEq
  | file =>
    by_cases hftl : ftlName nm = true
    case neg =>
      have hid : discoverFilesStep root curPath [(nm, FsNode.file)] ctx
          = ctx := by
        simp [discoverFilesStep, hftl]
      rw [hid]
      refine ⟨hinv, fun u hu => hu, ?_⟩
      intro nm' hEq hf
      cases hEq
      exact absurd hf hftl
    case pos =>
      by_cases hcl : ctx.uris.contains (curPath ++ [nm]) = true
      case pos =>
        have hclm : curPath ++ [nm] ∈ ctx.uris := by simpa using hcl
        have hid : discoverFilesStep root curPath [(nm, FsNode.file)] ctx
            = ctx := by
          simp [discoverFilesStep, hftl, hclm]
        rw [hid]
        refine ⟨hinv, fun u hu => hu, ?_⟩
        intro nm' hEq _
        cases hEq
        exact hclm
      case neg =>
        have hfresh : curPath ++ [nm] ∉ ctx.uris := by simpa using hcl
        have hfreshA : curPath ++ [nm] ∉ allUris ctx :=
          fun hmem => hfresh ((hinv.1 _).mpr hmem)
        cases hcol : (if curPath.dropLast ≠ [] then
            getCollection root curPath.dropLast else none) with
        | none =>
          have hstep : discoverFilesStep root curPath [(nm, FsNode.file)] ctx = { ctx with uris := uadd ctx.uris (curPath ++ [nm]), ungrouped := msetU ctx.ungrouped (curPath ++ [nm]) (createFileRecord (curPath ++ [nm])) } := by
            simp [discoverFilesStep, hftl, hfresh, hcol]
          rw [hstep]
          have hkeys : ∀ p ∈ ctx.ungrouped, p.1 ≠ curPath ++ [nm] := by
            intro p hp hEq
            apply hfreshA
            unfold allUris
            refine List.mem_append.mpr (Or.inr ?_)
            exact hEq ▸ List.mem_map_of_mem (fun p => p.1) hp
          have hall : allUris { ctx with uris := uadd ctx.uris (curPath ++ [nm]), ungrouped := msetU ctx.ungrouped (curPath ++ [nm]) (createFileRecord (curPath ++ [nm])) } = allUris ctx ++ [curPath ++ [nm]] := by
            unfold allUris
            rw [msetU_fresh hkeys]
            simp [List.map_append, List.append_assoc]
          refine ⟨⟨?_, ?_, ?_, ?_⟩, ?_, ?_⟩
          · intro u
            rw [hall]
            simp only [mem_uadd, List.mem_append, List.mem_singleton,
              hinv.1 u]
          · rw [hall, List.nodup_append]
            refine ⟨hinv.2.1, List.nodup_singleton _, ?_⟩
            rw [List.disjoint_left]
            intro a ha hak
            rw [List.mem_singleton] at hak
            exact hfreshA (hak ▸ ha)
          · intro c hc
            obtain ⟨h1, h2, h3⟩ := hinv.2.2.1 c hc
            exact ⟨h1, h2, fun u hu => mem_uadd.mpr (Or.inl (h3 u hu))⟩
          · intro p hp
            have hp' : p ∈ ctx.ungrouped ++ [(curPath ++ [nm], createFileRecord (curPath ++ [nm]))] := by
              rw [← msetU_fresh hkeys]
              exact hp
            rcases List.mem_append.mp hp' with hp1 | hp2
            · exact hinv.2.2.2 p hp1
            · rw [List.mem_singleton] at hp2
              subst hp2
              rw [List.dropLast_concat]
              by_cases hgp : curPath.dropLast = []
              · exact Or.inl hgp
              · right
                rw [if_pos hgp] at hcol
                exact hcol
          · exact fun u hu => mem_uadd.mpr (Or.inl hu)
          · intro nm' hEq _
            cases hEq
            exact mem_uadd.mpr (Or.inr rfl)
        | some c =>
          have hgp : curPath.dropLast ≠ [] := by
            intro h0
            rw [if_neg (fun hc => hc h0)] at hcol
            cases hcol
          have hgc : getCollection root curPath.dropLast = some c := by
            rw [if_pos hgp] at hcol
            exact hcol
          have hstep : discoverFilesStep root curPath [(nm, FsNode.file)] ctx = { ctx with uris := (collectionUris c).foldl uadd ctx.uris, collections := ctx.collections ++ [c] } := by
            simp [discoverFilesStep, hftl, hfresh, hcol]
          rw [hstep]
          have hne : curPath ≠ [] := by
            intro h0
            rw [h0] at hgp
            exact hgp rfl
          have hcur' : lookupNode root
              (curPath.dropLast ++ [curPath.getLast hne])
              = some (.dir cur) := by
            rw [List.dropLast_append_getLast hne]
            exact hcur
          have hnmmem : nm ∈ cur.map (fun e => e.1) :=
            List.mem_map_of_mem (fun e => e.1) he
          have htrigpre : curPath.dropLast
              ++ [curPath.getLast hne, nm] ∈ collectionUris c :=
            getCollection_trigger hgc hcur' hnmmem
          have hsplit : curPath.dropLast ++ [curPath.getLast hne, nm]
              = curPath ++ [nm] := by
            rw [show ([curPath.getLast hne, nm] : List String)
                = [curPath.getLast hne] ++ [nm] from rfl]
            rw [← List.append_assoc, List.dropLast_append_getLast hne]
          have htrig : curPath ++ [nm] ∈ collectionUris c := by
            rw [← hsplit]
            exact htrigpre
          have hdd : ∀ (l1 f1 : String),
              (curPath.dropLast ++ [l1, f1]).dropLast.dropLast
                = curPath.dropLast := by
            intro l1 f1
            rw [show ([l1, f1] : List String) = [l1] ++ [f1] from rfl]
            rw [← List.append_assoc, List.dropLast_concat,
              List.dropLast_concat]
          have hdisj : ∀ m ∈ collectionUris c, m ∉ allUris ctx := by
            intro m hm hmem
            unfold allUris at hmem
            rcases List.mem_append.mp hmem with hc1 | hu1
            · rcases List.mem_flatten.mp hc1 with ⟨lst, hlst, hml⟩
              rcases List.mem_map.mp hlst with ⟨c', hc', rfl⟩
              obtain ⟨hne', hget', hsub'⟩ := hinv.2.2.1 c' hc'
              obtain ⟨l1, f1, hs1⟩ := getCollection_mem_shape hgc m hm
              obtain ⟨l2, f2, hs2⟩ := getCollection_mem_shape hget' m hml
              have hEq := hs1.symm.trans hs2
              have hl2 : (curPath.dropLast).length = (c'.path).length := by
                have hL := congrArg List.length hEq
                rw [List.length_append, List.length_append] at hL
                simp only [List.length_cons, List.length_nil] at hL
                omega
              have hpe : c'.path = curPath.dropLast :=
                ((List.append_inj hEq hl2).1).symm
              have hcc : c' = c := by
                rw [hpe] at hget'
                exact Option.some.inj (hget'.symm.trans hgc)
              refine hfresh (hsub' _ ?_)
              rw [hcc]
              exact htrig
            · rcases List.mem_map.mp hu1 with ⟨p, hp, rfl⟩
              obtain ⟨l1, f1, hs1⟩ := getCollection_mem_shape hgc _ hm
              rcases hinv.2.2.2 p hp with h0 | hnone
              · rw [hs1, hdd l1 f1] at h0
                exact hgp h0
              · rw [hs1, hdd l1 f1] at hnone
                rw [hnone] at hgc
                cases hgc
          have hCnd : (collectionUris c).Nodup := getCollection_nodup hw hgc
          obtain ⟨ges0, hlk0, hb0, hcp⟩ := getCollection_elim hgc
          have hall : allUris { ctx with uris := (collectionUris c).foldl uadd ctx.uris, collections := ctx.collections ++ [c] } = ((ctx.collections.map collectionUris).flatten ++ collectionUris c) ++ ctx.ungrouped.map (fun p => p.1) := by
            unfold allUris
            simp [List.map_append, List.flatten_append]
          have hperm : List.Perm (((ctx.collections.map collectionUris).flatten ++ collectionUris c) ++ ctx.ungrouped.map (fun p => p.1)) (allUris ctx ++ collectionUris c) := by
            unfold allUris
            rw [List.append_assoc, List.append_assoc]
            exact List.Perm.append_left _ List.perm_append_comm
          have hnR : (allUris ctx ++ collectionUris c).Nodup := by
            rw [List.nodup_append]
            refine ⟨hinv.2.1, hCnd, ?_⟩
            rw [List.disjoint_left]
            intro a ha hac
            exact hdisj a hac ha
          refine ⟨⟨?_, ?_, ?_, ?_⟩, ?_, ?_⟩
          · intro u
            rw [hall]
            rw [hperm.mem_iff]
            simp only [mem_foldl_uadd, List.mem_append, hinv.1 u]
          · rw [hall]
            exact List.Perm.nodup hperm.symm hnR
          · intro c' hc'
            rcases List.mem_append.mp hc' with hco | hcn
            · obtain ⟨h1, h2, h3⟩ := hinv.2.2.1 c' hco
              exact ⟨h1, h2,
                fun u hu => (mem_foldl_uadd _ _ _).mpr (Or.inl (h3 u hu))⟩
            · rw [List.mem_singleton] at hcn
              subst hcn
              refine ⟨?_, ?_, ?_⟩
              · rw [hcp]
                exact hgp
              · rw [hcp]
                exact hgc
              · exact fun u hu => (mem_foldl_uadd _ _ _).mpr (Or.inr hu)
          · exact fun p hp => hinv.2.2.2 p hp
          · exact fun u hu => (mem_foldl_uadd _ _ _).mpr (Or.inl hu)
          · intro nm' hEq _
            cases hEq
            exact (mem_foldl_uadd _ _ _).mpr (Or.inr htrig)

end Discover

namespace Discover

/-- The file loop over a directory listing preserves the invariant, only
grows the claimed set, and claims every fresh resource file it meets. -/
theorem filesStep_inv (root : FsNode) (curPath : List String)
    (cur : List (String × FsNode)) (hw : WfFs root)
    (hcur : lookupNode root curPath = some (.dir cur)) :
    ∀ (rest : List (String × FsNode)) (ctx : Ctx),
    (∀ x ∈ rest, x ∈ cur) → Inv root ctx →
    Inv root (discoverFilesStep root curPath rest ctx)
    ∧ (∀ u ∈ ctx.uris, u ∈ (discoverFilesStep root curPath rest ctx).uris)
    ∧ (∀ nm, (nm, FsNode.file) ∈ rest → ftlName nm = true →
        curPath ++ [nm] ∈ (discoverFilesStep root curPath rest ctx).uris) := by
  intro rest
  induction rest with
  | nil =>
    intro ctx _ hinv
    exact ⟨hinv, fun u hu => hu,
      fun nm hm => absurd hm (List.not_mem_nil _)⟩
  | cons e rest ih =>
    intro ctx hsub hinv
    have hcons : discoverFilesStep root curPath (e :: rest) ctx
        = discoverFilesStep root curPath rest
            (discoverFilesStep root curPath [e] ctx) := rfl
    rw [hcons]
    obtain ⟨hinv1, hmono1, hclaim1⟩ := filesStepOne root curPath cur hw hcur
      e (hsub e (List.mem_cons_self _ _)) ctx hinv
    obtain ⟨hinv2, hmono2, hclaim2⟩ :=
      ih (discoverFilesStep root curPath [e] ctx)
        (fun x hx => hsub x (List.mem_cons_of_mem _ hx)) hinv1
    refine ⟨hinv2, fun u hu => hmono2 u (hmono1 u hu), ?_⟩
    intro nm hm hf
    rcases List.mem_cons.mp hm with heq | hm'
    · exact hmono2 _ (hclaim1 nm heq.symm hf)
    · exact hclaim2 nm hm' hf

end Discover

namespace Discover

/-- One fuel step of the walk: the file loop, then the subdirectory loop. -/
theorem discoverGo_succ (fuel : Nat) (root : FsNode) (curPath : List String)
    (cur : List (String × FsNode)) (ctx : Ctx) :
    discoverGo (fuel + 1) root curPath cur ctx
      = discoverDirs fuel root curPath cur
          (discoverFilesStep root curPath cur ctx) := rfl

/-- The subdirectory loop skips files. -/
theorem discoverDirs_cons_file (fuel : Nat) (root : FsNode)
    (curPath : List String) (nm : String)
    (rest : List (String × FsNode)) (ctx : Ctx) :
    discoverDirs fuel root curPath ((nm, FsNode.file) :: rest) ctx
      = discoverDirs fuel root curPath rest ctx := rfl

/-- The subdirectory loop skips hidden directories. -/
theorem discoverDirs_cons_hidden (fuel : Nat) (root : FsNode)
    (curPath : List String) (nm : String) (es : List (String × FsNode))
    (rest : List (String × FsNode)) (ctx : Ctx)
    (h : nm.startsWith "." = true) :
    discoverDirs fuel root curPath ((nm, FsNode.dir es) :: rest) ctx
      = discoverDirs fuel root curPath rest ctx := by
  simp only [discoverDirs, List.foldl_cons]
  congr 1
  simp [h]

/-- The subdirectory loop recurses into a non-hidden directory. -/
theorem discoverDirs_cons_dir (fuel : Nat) (root : FsNode)
    (curPath : List String) (nm : String) (es : List (String × FsNode))
    (rest : List (String × FsNode)) (ctx : Ctx)
    (h : ¬nm.startsWith "." = true) :
    discoverDirs fuel root curPath ((nm, FsNode.dir es) :: rest) ctx
      = discoverDirs fuel root curPath rest
          (discoverGo fuel root (curPath ++ [nm]) es ctx) := by
  simp only [discoverDirs, List.foldl_cons]
  congr 1
  simp [h]

end Discover

namespace Discover

set_option maxHeartbeats 1000000 in
/-- The whole walk preserves the invariant, only grows the claimed set,
and claims every reachable resource file. -/
theorem discoverGo_inv (root : FsNode) (hw : WfFs root) :
    ∀ (fuel : Nat) (curPath : List String) (cur : List (String × FsNode))
      (ctx : Ctx),
    lookupNode root curPath = some (.dir cur) → Inv root ctx →
    Inv root (discoverGo fuel root curPath cur ctx)
    ∧ (∀ u ∈ ctx.uris, u ∈ (discoverGo fuel root curPath cur ctx).uris)
    ∧ (∀ u ∈ reachFiles fuel curPath cur,
        u ∈ (discoverGo fuel root curPath cur ctx).uris) := by
  intro fuel
  induction fuel with
  | zero =>
    intro curPath cur ctx _ hinv
    exact ⟨hinv, fun u hu => hu,
      fun u hu => absurd hu (List.not_mem_nil _)⟩
  | succ fuel ih =>
    intro curPath cur ctx hcur hinv
    obtain ⟨hinv1, hmono1, hclaim1⟩ := filesStep_inv root curPath cur hw hcur
      cur ctx (fun x hx => hx) hinv
    have hwcur := wf_lookup curPath root _ hw hcur
    have hnodup : (cur.map (fun e => e.1)).Nodup := by
      cases hwcur with
      | dir _ hn _ => exact hn
    have hfold : ∀ (rest : List (String × FsNode)) (ctx1 : Ctx),
        (∀ x ∈ rest, x ∈ cur) → Inv root ctx1 →
        Inv root (discoverDirs fuel root curPath rest ctx1)
        ∧ (∀ u ∈ ctx1.uris,
            u ∈ (discoverDirs fuel root curPath rest ctx1).uris)
        ∧ (∀ e ∈ rest, ∀ d es, e = (d, FsNode.dir es) →
            ¬d.startsWith "." = true →
            ∀ u ∈ reachFiles fuel (curPath ++ [d]) es,
            u ∈ (discoverDirs fuel root curPath rest ctx1).uris) := by
      intro rest
      induction rest with
      | nil =>
        intro ctx1 _ hi1
        exact ⟨hi1, fun u hu => hu,
          fun e hm => absurd hm (List.not_mem_nil _)⟩
      | cons e rest ihr =>
        intro ctx1 hsub hi1
        obtain ⟨nm, node⟩ := e
        cases node with
        | file =>
          rw [discoverDirs_cons_file]
          obtain ⟨ha, hb, hc⟩ := ihr ctx1
            (fun x hx => hsub x (List.mem_cons_of_mem _ hx)) hi1
          refine ⟨ha, hb, ?_⟩
          intro e' hm d es hEq hhid
          rcases List.mem_cons.mp hm with heq | hm'
          · rw [heq] at hEq
            cases hEq
          · exact hc e' hm' d es hEq hhid
        | dir es0 =>
          by_cases hhid0 : nm.startsWith "." = true
          · rw [discoverDirs_cons_hidden fuel root curPath nm es0 rest ctx1
              hhid0]
            obtain ⟨ha, hb, hc⟩ := ihr ctx1
              (fun x hx => hsub x (List.mem_cons_of_mem _ hx)) hi1
            refine ⟨ha, hb, ?_⟩
            intro e' hm d es hEq hhid
            rcases List.mem_cons.mp hm with heq | hm'
            · rw [heq] at hEq
              have hd : nm = d := congrArg Prod.fst hEq
              rw [← hd] at hhid
              exact absurd hhid0 hhid
            · exact hc e' hm' d es hEq hhid
          · have hfind := find?_of_mem_nodup cur nm (FsNode.dir es0)
              hnodup (hsub (nm, .dir es0) (List.mem_cons_self _ _))
            have hlk : lookupNode root (curPath ++ [nm])
                = some (.dir es0) := by
              rw [lookupNode_append curPath [nm] root, hcur]
              show lookupNode (FsNode.dir cur) [nm] = some (.dir es0)
              simp only [lookupNode, hfind]
            rw [discoverDirs_cons_dir fuel root curPath nm es0 rest ctx1
              hhid0]
            obtain ⟨ha2, hb2, hc2⟩ := ih (curPath ++ [nm]) es0 ctx1 hlk hi1
            obtain ⟨ha3, hb3, hc3⟩ := ihr
              (discoverGo fuel root (curPath ++ [nm]) es0 ctx1)
              (fun x hx => hsub x (List.mem_cons_of_mem _ hx)) ha2
            refine ⟨ha3, fun u hu => hb3 u (hb2 u hu), ?_⟩
            intro e' hm d es hEq hhid
            rcases List.mem_cons.mp hm with heq | hm'
            · rw [heq] at hEq
              have hd : nm = d := congrArg Prod.fst hEq
              have hes : FsNode.dir es0 = FsNode.dir es :=
                congrArg Prod.snd hEq
              have hes2 : es0 = es := by
                cases hes
                rfl
              subst hd hes2
              exact fun u hu => hb3 u (hc2 u hu)
            · exact hc3 e' hm' d es hEq hhid
    rw [discoverGo_succ]
    obtain ⟨ha, hb, hc⟩ := hfold cur (discoverFilesStep root curPath cur ctx)
      (fun x hx => hx) hinv1
    refine ⟨ha, fun u hu => hb u (hmono1 u hu), ?_⟩
    intro u hu
    simp only [reachFiles] at hu
    rcases List.mem_append.mp hu with hu1 | hu2
    · rcases List.mem_filterMap.mp hu1 with ⟨a, hamem, hafa⟩
      obtain ⟨an, anode⟩ := a
      cases anode with
      | dir es => cases hafa
      | file =>
        simp only at hafa
        split at hafa
        · have hu3 := Option.some.inj hafa
          rw [← hu3]
          have hftl : ftlName an = true := by assumption
          exact hb _ (hclaim1 an hamem hftl)
        · cases hafa
    · rcases List.mem_flatten.mp hu2 with ⟨lst, hlst, hul⟩
      rcases List.mem_map.mp hlst with ⟨e, hemem, rfl⟩
      obtain ⟨d, node⟩ := e
      cases node with
      | file =>
        simp only at hul
        cases hul
      | dir es =>
        simp only at hul
        by_cases hhid : d.startsWith "." = true
        · rw [if_pos hhid] at hul
          cases hul
        · rw [if_neg hhid] at hul
          exact hc (d, .dir es) hemem d es rfl hhid u hul

end Discover

/-- C6: over a well-formed snapshot (distinct sibling names, as on a real
file system), discovery claims a URI set that is exactly the set of URIs
appearing in the produced partition, no URI appears in the partition twice
(each file lies in exactly one collection group or in the ungrouped set,
never both and never twice), and every walk-reachable resource file appears
in the partition; the model is a pure function of the snapshot, so a second
run over the unchanged tree yields the identical result. -/
theorem C6_discovery_exactly_once
    (baseEntries : List (String × Discover.FsNode))
    (hwf : Discover.WfFs (.dir baseEntries)) :
    (Discover.allUris (Discover.discover baseEntries)).Nodup
    ∧ (∀ u, u ∈ (Discover.discover baseEntries).uris
        ↔ u ∈ Discover.allUris (Discover.discover baseEntries))
    ∧ (∀ u ∈ Discover.reachFiles (Discover.entriesSize baseEntries + 1) []
          baseEntries,
        u ∈ Discover.allUris (Discover.discover baseEntries)) := by
  have h0 : Discover.Inv (.dir baseEntries)
      { collections := [], ungrouped := [], uris := [] } := by
    refine ⟨?_, ?_, ?_, ?_⟩
    · intro u
      simp [Discover.allUris]
    · simp [Discover.allUris]
    · intro c hc
      cases hc
    · intro p hp
      cases hp
  have hlk : Discover.lookupNode (.dir baseEntries) []
      = some (.dir baseEntries) := rfl
  obtain ⟨hinv, hmono, hreach⟩ := Discover.discoverGo_inv (.dir baseEntries)
    hwf (Discover.entriesSize baseEntries + 1) [] baseEntries
    { collections := [], ungrouped := [], uris := [] } hlk h0
  refine ⟨hinv.2.1, hinv.1, ?_⟩
  intro u hu
  exact (hinv.1 u).mp (hreach u hu)

/-- C6 witness: the theorem applied to the concrete snapshot `demoFs`
(a two-level collection, a loose base file and a hidden directory), with
well-formedness discharged by explicit constructors. -/
theorem C6_witness :
    (Discover.allUris (Discover.discover demoFs)).Nodup
    ∧ (∀ u, u ∈ (Discover.discover demoFs).uris
        ↔ u ∈ Discover.allUris (Discover.discover demoFs))
    ∧ (∀ u ∈ Discover.reachFiles (Discover.entriesSize demoFs + 1) []
          demoFs,
        u ∈ Discover.allUris (Discover.discover demoFs)) := by
  refine C6_discovery_exactly_once demoFs ?_
  refine Discover.WfFs.dir _ (by decide) ?_
  intro e he
  simp only [demoFs, List.mem_cons, List.not_mem_nil, or_false] at he
  rcases he with rfl | rfl | rfl
  · refine Discover.WfFs.dir _ (by decide) ?_
    intro e he
    simp only [List.mem_cons, List.not_mem_nil, or_false] at he
    rcases he with rfl
    refine Discover.WfFs.dir _ (by decide) ?_
    intro e he
    simp only [List.mem_cons, List.not_mem_nil, or_false] at he
    rcases he with rfl | rfl
    · refine Discover.WfFs.dir _ (by decide) ?_
      intro e he
      simp only [List.mem_cons, List.not_mem_nil, or_false] at he
      rcases he with rfl
      exact Discover.WfFs.file
    · refine Discover.WfFs.dir _ (by decide) ?_
      intro e he
      simp only [List.mem_cons, List.not_mem_nil, or_false] at he
      rcases he with rfl
      exact Discover.WfFs.file
  · exact Discover.WfFs.file
  · refine Discover.WfFs.dir _ (by decide) ?_
    intro e he
    simp only [List.mem_cons, List.not_mem_nil, or_false] at he
    rcases he with rfl
    exact Discover.WfFs.file
